import Mathlib

/-! Online table migration core of WCDB.

Shallow embedding of `MigrateHandle.cpp` and `MigratingHandle.cpp`.

* The SQL engine (statement preparation, stepping, transactions, the steady
  clock) is not part of the two files; it is a parameter `Engine σ` acting on
  an abstract engine state `σ`.
* Every call a handle makes into the engine is recorded in a ghost `trace`,
  so that statements such as "no attach statement is executed" can be stated.
* A `double` is a value of `Double`: a rational, an infinity or NaN.  Each
  arithmetic operation of the pacing computation is the exact operation
  followed by a rounding `ℚ → Double`; `binary64` is the rounding of IEEE 754
  double precision (round to nearest, ties to even), `exactRounding` the
  idealised arithmetic that does not round.  Clock readings and the samples
  taken from them are finite values.
-/

namespace WCDB

/-! ## Data model -/

/-- Schema descriptor: the main schema, the temp schema, or an attached schema
identified by its name. -/
inductive Schema where
  | main
  | temp
  | named (name : String)
deriving DecidableEq, Repr

/-- Test `schema.syntax().isMain()`. -/
def Schema.isMain : Schema → Bool
  | Schema.main => true
  | _ => false

/-- Modelled from the spec: `Syntax::Schema::isTargetingSameSchema` is declared
outside the two source files; "the requested source schema is already
attached" is read as equality of the two schema descriptors. -/
def Schema.isTargetingSameSchema (a b : Schema) : Bool :=
  decide (a = b)

/-- Raw bytes (`WCDB::Data`), used for the cipher of a source database. -/
abbrev Data := List Nat

/-- Descriptor of one (source → destination) pair.  `address` stands for the
identity of the C++ object: the handles compare `const MigrationInfo*`
pointers, and two records are equal exactly when they agree on the address and
on every attribute. -/
structure MigrationInfo where
  address : Nat
  table : String
  sourceTable : String
  schemaForSourceDatabase : Schema
  sourceCipher : Data
  needRawSourceCipher : Bool
  unionedView : String
deriving DecidableEq, Repr

/-- Statements the two handles hand to the engine, named after the getters
that build them. -/
inductive Statement where
  | attachingSchema (schema : Schema)
  | detach (schema : Schema)
  | migratingOneRow (info : MigrationInfo)
  | deletingMigratedOneRow (info : MigrationInfo)
  | droppingSourceTable (info : MigrationInfo)
  | droppingUnionedView (view : String)
  | creatingUnionedView (info : MigrationInfo)
  | selectingUnionedView
  | selectingDatabaseList
deriving DecidableEq, Repr

/-- The `HandleStatement` objects a migrate handle steps: its two members and
the local `handleStatement` of `attach`. -/
inductive Slot where
  | migrateStatement
  | removeMigratedStatement
  | handleStatement
deriving DecidableEq, Repr

/-- One call into the engine or the registry, with its outcome. -/
inductive Event where
  | tableExists (schema : Schema) (table : String) (result : Option Bool)
  | getValues (statement : Statement) (result : Option (List String))
  | getColumns (schema : Schema) (table : String) (result : Option (List String))
  | execute (statement : Statement) (succeed : Bool)
  | prepare (slot : Slot) (statement : Statement) (succeed : Bool)
  | bindBLOB (slot : Slot) (data : Data)
  | step (slot : Slot) (succeed : Bool)
  | reset (slot : Slot)
  | finalize (slot : Slot)
  | getChanges (changes : Int)
  | setRawSourceCipher (schema : Schema) (key : Data)
  | beginTransaction (succeed : Bool)
  | commitTransaction (succeed : Bool)
  | rollbackTransaction
  | setNeedRebind
deriving DecidableEq, Repr

/-- The engine below a handle (`InnerHandle`, `HandleStatement`,
`SteadyClock`), as state transformers on an abstract engine state. -/
structure Engine (σ : Type) where
  tableExists : Schema → String → σ → Option Bool × σ
  getValues : Statement → Nat → σ → Option (List String) × σ
  getColumns : Schema → String → σ → Option (List String) × σ
  execute : Statement → σ → Bool × σ
  prepare : Slot → Statement → σ → Bool × σ
  bindBLOB : Slot → Data → σ → σ
  step : Slot → σ → Bool × σ
  reset : Slot → σ → σ
  finalize : Slot → σ → σ
  getChanges : σ → Int
  getRawCipherKey : Schema → σ → Data
  beginTransaction : σ → Bool × σ
  commitOrRollbackTransaction : σ → Bool × σ
  rollbackTransaction : σ → σ
  isInTransaction : σ → Bool
  now : σ → ℚ × σ

/-- Constants of `CoreConst.h` and `MigrateHandle.hpp`, which are not part of
the two source files. -/
structure CoreConst where
  MigrateMaxExpectingDuration : ℚ
  MigrateMaxInitializeDuration : ℚ
  numberOfSamples : Nat

/-! ## InnerHandle: engine calls with their trace -/

/-- Base part of both handles: the engine state and the ghost trace. -/
structure InnerHandle (σ : Type) where
  engine : σ
  trace : List Event

namespace InnerHandle

variable {σ : Type}

/-- Append one event to the trace and install the new engine state. -/
def record (b : InnerHandle σ) (s : σ) (e : Event) : InnerHandle σ :=
  { engine := s, trace := b.trace ++ [e] }

def tableExists (E : Engine σ) (schema : Schema) (table : String) (b : InnerHandle σ) :
    Option Bool × InnerHandle σ :=
  let r := E.tableExists schema table b.engine
  (r.1, b.record r.2 (Event.tableExists schema table r.1))

def getValues (E : Engine σ) (statement : Statement) (index : Nat) (b : InnerHandle σ) :
    Option (List String) × InnerHandle σ :=
  let r := E.getValues statement index b.engine
  (r.1, b.record r.2 (Event.getValues statement r.1))

def getColumns (E : Engine σ) (schema : Schema) (table : String) (b : InnerHandle σ) :
    Option (List String) × InnerHandle σ :=
  let r := E.getColumns schema table b.engine
  (r.1, b.record r.2 (Event.getColumns schema table r.1))

def execute (E : Engine σ) (statement : Statement) (b : InnerHandle σ) :
    Bool × InnerHandle σ :=
  let r := E.execute statement b.engine
  (r.1, b.record r.2 (Event.execute statement r.1))

def prepare (E : Engine σ) (slot : Slot) (statement : Statement) (b : InnerHandle σ) :
    Bool × InnerHandle σ :=
  let r := E.prepare slot statement b.engine
  (r.1, b.record r.2 (Event.prepare slot statement r.1))

def bindBLOB (E : Engine σ) (slot : Slot) (data : Data) (b : InnerHandle σ) : InnerHandle σ :=
  b.record (E.bindBLOB slot data b.engine) (Event.bindBLOB slot data)

def step (E : Engine σ) (slot : Slot) (b : InnerHandle σ) : Bool × InnerHandle σ :=
  let r := E.step slot b.engine
  (r.1, b.record r.2 (Event.step slot r.1))

def reset (E : Engine σ) (slot : Slot) (b : InnerHandle σ) : InnerHandle σ :=
  b.record (E.reset slot b.engine) (Event.reset slot)

def finalize (E : Engine σ) (slot : Slot) (b : InnerHandle σ) : InnerHandle σ :=
  b.record (E.finalize slot b.engine) (Event.finalize slot)

def getChanges (E : Engine σ) (b : InnerHandle σ) : Int × InnerHandle σ :=
  (E.getChanges b.engine, b.record b.engine (Event.getChanges (E.getChanges b.engine)))

def beginTransaction (E : Engine σ) (b : InnerHandle σ) : Bool × InnerHandle σ :=
  let r := E.beginTransaction b.engine
  (r.1, b.record r.2 (Event.beginTransaction r.1))

def commitOrRollbackTransaction (E : Engine σ) (b : InnerHandle σ) : Bool × InnerHandle σ :=
  let r := E.commitOrRollbackTransaction b.engine
  (r.1, b.record r.2 (Event.commitTransaction r.1))

def rollbackTransaction (E : Engine σ) (b : InnerHandle σ) : InnerHandle σ :=
  b.record (E.rollbackTransaction b.engine) Event.rollbackTransaction

/-- Read the steady clock; reading the clock is not an engine statement and
leaves no event. -/
def now (E : Engine σ) (b : InnerHandle σ) : ℚ × InnerHandle σ :=
  let r := E.now b.engine
  (r.1, { b with engine := r.2 })

end InnerHandle

/-! ## Sample ring and pacing -/

/-- Pair (time within the per-row loop, time of the whole transaction). -/
structure Sample where
  timeIntervalWithinTransaction : ℚ
  timeIntervalWholeTransaction : ℚ
deriving DecidableEq, Repr

/-- Constructor `MigrateHandle::Sample::Sample()`: both intervals zero. -/
def Sample.zero : Sample := ⟨0, 0⟩

/-- A `double`: a finite value (the two zeros are identified), an infinity or
NaN. -/
inductive Double where
  | finite (q : ℚ)
  | posInf
  | negInf
  | nan
deriving DecidableEq

namespace Double

/-- IEEE addition `a + b`; `R` rounds the exact sum of two finite values. -/
def add (R : ℚ → Double) : Double → Double → Double
  | finite a, finite b => R (a + b)
  | nan, _ => nan
  | _, nan => nan
  | posInf, negInf => nan
  | negInf, posInf => nan
  | posInf, _ => posInf
  | negInf, _ => negInf
  | finite _, posInf => posInf
  | finite _, negInf => negInf

/-- IEEE multiplication `a * b`; `R` rounds the exact product of two finite
values, and zero times an infinity is NaN. -/
def mul (R : ℚ → Double) : Double → Double → Double
  | finite a, finite b => R (a * b)
  | nan, _ => nan
  | _, nan => nan
  | finite a, posInf => if a = 0 then nan else if 0 < a then posInf else negInf
  | finite a, negInf => if a = 0 then nan else if 0 < a then negInf else posInf
  | posInf, finite b => if b = 0 then nan else if 0 < b then posInf else negInf
  | negInf, finite b => if b = 0 then nan else if 0 < b then negInf else posInf
  | posInf, posInf => posInf
  | posInf, negInf => negInf
  | negInf, posInf => negInf
  | negInf, negInf => posInf

/-- IEEE division `a / b`; `R` rounds the exact quotient of two finite values,
`0/0` and `∞/∞` are NaN, `x/0` is an infinity.  A zero divisor is taken as `+0`:
the one divisor of this development is a sum that starts from `+0`. -/
def div (R : ℚ → Double) : Double → Double → Double
  | finite a, finite b =>
    if b = 0 then
      if a = 0 then nan else if 0 < a then posInf else negInf
    else R (a / b)
  | nan, _ => nan
  | _, nan => nan
  | finite _, posInf => finite 0
  | finite _, negInf => finite 0
  | posInf, finite b => if 0 ≤ b then posInf else negInf
  | negInf, finite b => if 0 ≤ b then negInf else posInf
  | posInf, posInf => nan
  | posInf, negInf => nan
  | negInf, posInf => nan
  | negInf, negInf => nan

/-- Comparison `x > m` against a finite value; false for NaN. -/
def gt : Double → ℚ → Bool
  | finite q, m => decide (q > m)
  | posInf, _ => true
  | negInf, _ => false
  | nan, _ => false

/-- Comparison `x <= m` against a finite value; false for NaN. -/
def le : Double → ℚ → Bool
  | finite q, m => decide (q ≤ m)
  | posInf, _ => false
  | negInf, _ => true
  | nan, _ => false

/-- Test `std::isnan`. -/
def isnan : Double → Bool
  | nan => true
  | _ => false

/-- Comparison `cost < x` of a finite value against `x`; false for NaN. -/
def exceeds : Double → ℚ → Bool
  | finite q, cost => decide (cost < q)
  | posInf, _ => true
  | negInf, _ => false
  | nan, _ => false

end Double

/-- Idealised arithmetic: every exact result is kept as it is. -/
def exactRounding : ℚ → Double :=
  Double.finite

/-- Nearest integer of a rational, a tie going to the even neighbour. -/
def roundHalfEven (m : ℚ) : ℤ :=
  if m - ⌊m⌋ < 1 / 2 then ⌊m⌋
  else if 1 / 2 < m - ⌊m⌋ then ⌊m⌋ + 1
  else if ⌊m⌋ % 2 = 0 then ⌊m⌋ else ⌊m⌋ + 1

/-- Rounding of IEEE 754 double precision, round to nearest with ties to even:
53 significant bits, exponents from -1022 (below which the spacing stays
`2 ^ (-1074)`) to 1023, and an infinity once the rounded magnitude reaches
`2 ^ 1024`. -/
def binary64 (q : ℚ) : Double :=
  if q = 0 then Double.finite 0
  else
    let e : ℤ := max (Int.log 2 |q|) (-1022)
    let ulp : ℚ := 2 ^ (e - 52)
    let r : ℚ := roundHalfEven (|q| / ulp) * ulp
    if (2 : ℚ) ^ (1024 : ℤ) ≤ r then (if 0 < q then Double.posInf else Double.negInf)
    else Double.finite (if 0 < q then r else -r)

/-- Body of the `for` loop of `calculateTimeIntervalWithinTransaction`: the pair
of running totals after one more slot; `R` rounds each `+=`. -/
def accumulateSample (R : ℚ → Double) (totals : Double × Double) (sample : Sample) :
    Double × Double :=
  if sample.timeIntervalWithinTransaction > 0 ∧ sample.timeIntervalWholeTransaction > 0 then
    (Double.add R totals.1 (Double.finite sample.timeIntervalWithinTransaction),
      Double.add R totals.2 (Double.finite sample.timeIntervalWholeTransaction))
  else totals

/-- Function `MigrateHandle::calculateTimeIntervalWithinTransaction`, on the
slots of the ring; `R` rounds each of its `double` operations (the sums, the
product and the quotient).  The code runs it with `binary64`. -/
def calculateTimeIntervalWithinTransaction (R : ℚ → Double) (C : CoreConst)
    (m_samples : List Sample) : Double :=
  let totals := m_samples.foldl (accumulateSample R) (Double.finite 0, Double.finite 0)
  let timeIntervalWithinTransaction :=
    Double.div R (Double.mul R (Double.finite C.MigrateMaxExpectingDuration) totals.1) totals.2
  if timeIntervalWithinTransaction.gt C.MigrateMaxExpectingDuration
      || timeIntervalWithinTransaction.le 0 || timeIntervalWithinTransaction.isnan then
    Double.finite C.MigrateMaxInitializeDuration
  else timeIntervalWithinTransaction

/-- State of a `MigrateHandle`.  The two member statements are represented by
their `isPrepared()` flag; the statement objects themselves live in the engine
under `Slot.migrateStatement` and `Slot.removeMigratedStatement`. -/
structure MigrateHandle (σ : Type) where
  inner : InnerHandle σ
  m_attached : Schema
  m_migratingInfo : Option MigrationInfo
  m_migrateStatement : Bool
  m_removeMigratedStatement : Bool
  m_samples : List Sample
  m_samplePointing : Nat

namespace MigrateHandle

variable {σ : Type}

/-- Constructor `MigrateHandle::MigrateHandle()`: no migrating info, nothing
prepared, every sample slot zero, write pointer 0.  `m_attached` is
default-constructed; the default schema is the main one (§3 of the
specification: the attached schema state is main or one synthetic schema). -/
def create (C : CoreConst) (engine : σ) : MigrateHandle σ :=
  { inner := { engine := engine, trace := [] }
    m_attached := Schema.main
    m_migratingInfo := none
    m_migrateStatement := false
    m_removeMigratedStatement := false
    m_samples := List.replicate C.numberOfSamples Sample.zero
    m_samplePointing := 0 }

/-- Function `MigrateHandle::finalizeMigrationStatement`. -/
def finalizeMigrationStatement (E : Engine σ) (h : MigrateHandle σ) : MigrateHandle σ :=
  let b := h.inner.finalize E Slot.migrateStatement
  let b := b.finalize E Slot.removeMigratedStatement
  { h with inner := b, m_migrateStatement := false, m_removeMigratedStatement := false }

/-- Function `MigrateHandle::detach`. -/
def detach (E : Engine σ) (h : MigrateHandle σ) : Bool × MigrateHandle σ :=
  if !h.m_attached.isMain then
    let r := h.inner.execute E (Statement.detach h.m_attached)
    if r.1 then (true, { h with inner := r.2, m_attached := Schema.main })
    else (false, { h with inner := r.2 })
  else (true, h)

/-- Function `MigrateHandle::attach`. -/
def attach (E : Engine σ) (info : MigrationInfo) (h : MigrateHandle σ) :
    Bool × MigrateHandle σ :=
  let p := h.inner.prepare E Slot.handleStatement
    (Statement.attachingSchema info.schemaForSourceDatabase)
  let r : Bool × InnerHandle σ :=
    if p.1 then
      let b := if !info.sourceCipher.isEmpty then
          p.2.bindBLOB E Slot.handleStatement info.sourceCipher
        else p.2
      let s := b.step E Slot.handleStatement
      (s.1, s.2.finalize E Slot.handleStatement)
    else p
  if r.1 then
    let b := if info.needRawSourceCipher then
        r.2.record r.2.engine (Event.setRawSourceCipher info.schemaForSourceDatabase
          (E.getRawCipherKey info.schemaForSourceDatabase r.2.engine))
      else r.2
    (true, { h with inner := b, m_attached := info.schemaForSourceDatabase })
  else (false, { h with inner := r.2 })

/-- Function `MigrateHandle::reAttach`. -/
def reAttach (E : Engine σ) (info : MigrationInfo) (h : MigrateHandle σ) :
    Bool × MigrateHandle σ :=
  let r : Bool × MigrateHandle σ :=
    if !h.m_attached.isTargetingSameSchema info.schemaForSourceDatabase then
      let d := h.detach E
      if d.1 then d.2.attach E info else (false, d.2)
    else (true, h)
  (r.1, finalizeMigrationStatement E { r.2 with m_migratingInfo := none })

/-- Function `MigrateHandle::dropSourceTable`. -/
def dropSourceTable (E : Engine σ) (info : MigrationInfo) (h : MigrateHandle σ) :
    Bool × MigrateHandle σ :=
  let r := h.reAttach E info
  if r.1 then
    let x := r.2.inner.execute E (Statement.droppingSourceTable info)
    (x.1, { r.2 with inner := x.2, m_migratingInfo := some info })
  else (false, r.2)

/-- Function `MigrateHandle::migrateRow`. -/
def migrateRow (E : Engine σ) (h : MigrateHandle σ) : Option Bool × MigrateHandle σ :=
  let b := h.inner.reset E Slot.migrateStatement
  let b := b.reset E Slot.removeMigratedStatement
  let s := b.step E Slot.migrateStatement
  if s.1 then
    let c := s.2.getChanges E
    if c.1 ≠ 0 then
      let d := c.2.step E Slot.removeMigratedStatement
      if d.1 then (some false, { h with inner := d.2 })
      else (none, { h with inner := d.2 })
    else (some true, { h with inner := c.2 })
  else (none, { h with inner := s.2 })

/-- Engine state in which `migrateRow` steps the migrate statement: the state
at entry after the two `reset()` calls. -/
def afterResets (E : Engine σ) (h : MigrateHandle σ) : σ :=
  E.reset Slot.removeMigratedStatement (E.reset Slot.migrateStatement h.inner.engine)

/-- What the engine answers to the migrate step of `migrateRow`. -/
def migrateStep (E : Engine σ) (h : MigrateHandle σ) : Bool × σ :=
  E.step Slot.migrateStatement (afterResets E h)

/-- Change count `getChanges()` reads after the migrate step of `migrateRow`. -/
def changesAfterMigrate (E : Engine σ) (h : MigrateHandle σ) : Int :=
  E.getChanges (migrateStep E h).2

/-- What the engine answers to the delete step that follows the migrate step
of `migrateRow`. -/
def removeStep (E : Engine σ) (h : MigrateHandle σ) : Bool × σ :=
  E.step Slot.removeMigratedStatement (migrateStep E h).2

/-- Function `MigrateHandle::addSample`. -/
def addSample (C : CoreConst) (timeIntervalWithinTransaction : ℚ)
    (timeIntervalForWholeTransaction : ℚ) (h : MigrateHandle σ) : MigrateHandle σ :=
  let samples := h.m_samples.set h.m_samplePointing
    { timeIntervalWithinTransaction := timeIntervalWithinTransaction
      timeIntervalWholeTransaction := timeIntervalForWholeTransaction }
  let pointing := h.m_samplePointing + 1
  { h with
    m_samples := samples
    m_samplePointing := if pointing ≥ C.numberOfSamples then 0 else pointing }

/-- A sequence of `addSample` calls, one per element of `samples`, oldest
first. -/
def addSamples (C : CoreConst) (samples : List Sample) (h : MigrateHandle σ) :
    MigrateHandle σ :=
  samples.foldl
    (fun h1 s => addSample C s.timeIntervalWithinTransaction s.timeIntervalWholeTransaction h1) h

/-- Modelled from the spec: `InnerHandle::runTransaction` is outside the two
source files.  BEGIN; run the body; COMMIT when the body reports success,
ROLLBACK otherwise; the result is true only when BEGIN, the body and COMMIT
all succeeded.  `α` carries the locals the lambda captures by reference; a
body that runs out of fuel yields `none`. -/
def runTransaction {α : Type} (E : Engine σ)
    (transaction : MigrateHandle σ → Option (Bool × α × MigrateHandle σ))
    (h : MigrateHandle σ) : Option (Bool × Option α × MigrateHandle σ) :=
  let b := h.inner.beginTransaction E
  if b.1 then
    match transaction { h with inner := b.2 } with
    | none => none
    | some (succeed, captured, h1) =>
      if succeed then
        let c := h1.inner.commitOrRollbackTransaction E
        some (c.1, some captured, { h1 with inner := c.2 })
      else
        some (false, some captured, { h1 with inner := h1.inner.rollbackTransaction E })
  else some (false, none, { h with inner := b.2 })

/-- The `do … while` loop of the lambda in `migrateRows`, with `fuel` bounding
the number of iterations; yields the last `migrated` and the last `cost`. -/
def migrateLoop (E : Engine σ) (timeIntervalWithinTransaction : Double)
    (beforeTransaction : ℚ) :
    Nat → MigrateHandle σ → Option (Option Bool × ℚ × MigrateHandle σ)
  | 0, _ => none
  | fuel + 1, h =>
    let m := h.migrateRow E
    let t := m.2.inner.now E
    let cost := t.1 - beforeTransaction
    let h1 := { m.2 with inner := t.2 }
    if m.1 = some false ∧ timeIntervalWithinTransaction.exceeds cost = true then
      migrateLoop E timeIntervalWithinTransaction beforeTransaction fuel h1
    else some (m.1, cost, h1)

/-- Lines 141–146 of `migrateRows`: when the info differs from the one in
effect, `reAttach` and record the new info; false is the early
`return NullOpt`. -/
def switchInfo (E : Engine σ) (info : MigrationInfo) (h : MigrateHandle σ) :
    Bool × MigrateHandle σ :=
  if h.m_migratingInfo ≠ some info then
    let r := h.reAttach E info
    if r.1 then (true, { r.2 with m_migratingInfo := some info }) else (false, r.2)
  else (true, h)

/-- Lines 148–151 of `migrateRows`: lazily prepare the per-row migrate
statement; false is the early `return NullOpt`. -/
def prepareMigrateStatement (E : Engine σ) (info : MigrationInfo) (h : MigrateHandle σ) :
    Bool × MigrateHandle σ :=
  if !h.m_migrateStatement then
    let r := h.inner.prepare E Slot.migrateStatement
      (Statement.migratingOneRow (h.m_migratingInfo.getD info))
    (r.1, { h with inner := r.2, m_migrateStatement := r.1 })
  else (true, h)

/-- Lines 153–157 of `migrateRows`: lazily prepare the per-row delete
statement; false is the early `return NullOpt`. -/
def prepareRemoveStatement (E : Engine σ) (info : MigrationInfo) (h : MigrateHandle σ) :
    Bool × MigrateHandle σ :=
  if !h.m_removeMigratedStatement then
    let r := h.inner.prepare E Slot.removeMigratedStatement
      (Statement.deletingMigratedOneRow (h.m_migratingInfo.getD info))
    (r.1, { h with inner := r.2, m_removeMigratedStatement := r.1 })
  else (true, h)

/-- Lines 159–181 of `migrateRows`: budget, transaction around the per-row
loop, sample. -/
def migrateRowsTransaction (E : Engine σ) (C : CoreConst) (fuel : Nat)
    (h : MigrateHandle σ) : Option (Option Bool × MigrateHandle σ) :=
  let timeIntervalWithinTransaction :=
    calculateTimeIntervalWithinTransaction binary64 C h.m_samples
  let t0 := h.inner.now E
  let beforeTransaction := t0.1
  match runTransaction E
      (fun h1 => (migrateLoop E timeIntervalWithinTransaction beforeTransaction fuel h1).map
        (fun r => (r.1.isSome, (r.1, r.2.1), r.2.2)))
      { h with inner := t0.2 } with
  | none => none
  | some (true, some (migrated, cost), h2) =>
    let t := h2.inner.now E
    let timeIntervalWholeTranscation := t.1 - beforeTransaction
    some (migrated, addSample C cost timeIntervalWholeTranscation { h2 with inner := t.2 })
  | some (_, _, h2) => some (none, h2)

/-- Function `MigrateHandle::migrateRows`.  The outer `Option` is `none` only
when the loop needs more than `fuel` iterations; the inner `Option Bool` is
the returned `Optional<bool>`. -/
def migrateRows (E : Engine σ) (C : CoreConst) (fuel : Nat) (info : MigrationInfo)
    (h : MigrateHandle σ) : Option (Option Bool × MigrateHandle σ) :=
  let e := h.inner.tableExists E Schema.main info.table
  let h0 := { h with inner := e.2 }
  match e.1 with
  | none => some (none, h0)
  | some false => some (some true, h0)
  | some true =>
    let a := switchInfo E info h0
    if !a.1 then some (none, a.2) else
    let p := prepareMigrateStatement E info a.2
    if !p.1 then some (none, p.2) else
    let q := prepareRemoveStatement E info p.2
    if !q.1 then some (none, q.2) else
    migrateRowsTransaction E C fuel q.2

end MigrateHandle

/-! ## MigratingHandle -/

/-- State of a `MigratingHandle`, as far as the two files use it. -/
structure MigratingHandle (σ : Type) where
  inner : InnerHandle σ
  m_createdNewViewInTransaction : Bool

/-- The `Migration::Binder` base class (registry side), outside the two source
files.  Binding operations may call back into the handle (`stopBinding(true)`
runs `bindInfos`), so they act on the whole handle; `setNeedRebind` only
touches the registry, which is part of the state `σ`. -/
structure Binder (σ : Type) where
  getBoundInfo : String → MigratingHandle σ → Option MigrationInfo
  startBinding : MigratingHandle σ → MigratingHandle σ
  bindTable : String → MigratingHandle σ → Option (Option MigrationInfo) × MigratingHandle σ
  stopBinding : Bool → MigratingHandle σ → Bool × MigratingHandle σ
  setNeedRebind : σ → σ

/-- Modelled from the spec: the constant `Syntax::masterTable` is declared
outside the two source files; it names the master table of a schema. -/
def masterTable : String := "sqlite_master"

namespace MigratingHandle

variable {σ : Type}

/-- Function `MigratingHandle::getBindingInfo`; the outer `Option` is the
`Optional`, the inner one the possibly null pointer. -/
def getBindingInfo (B : Binder σ) (table : String) (h : MigratingHandle σ) :
    Option (Option MigrationInfo) × MigratingHandle σ :=
  match B.getBoundInfo table h with
  | some boundInfo => (some (some boundInfo), h)
  | none =>
    let h1 := B.startBinding h
    let result := B.bindTable table h1
    let needBinding : Bool :=
      match result.1 with
      | some (some _) => true
      | _ => false
    let stopped := B.stopBinding needBinding result.2
    if needBinding && !stopped.1 then (none, stopped.2)
    else (result.1, stopped.2)

/-- The `while` loop of `getColumns`: walk the destination columns and erase
each one that `sourceColumns->find` does not find. -/
def eraseMissing (sourceColumns : List String) : List String → List String
  | [] => []
  | column :: rest =>
    if column ∈ sourceColumns then column :: eraseMissing sourceColumns rest
    else eraseMissing sourceColumns rest

/-- Function `MigratingHandle::getColumns`; a `std::set` is the list of its
elements. -/
def getColumns (E : Engine σ) (B : Binder σ) (schema : Schema) (table : String)
    (h : MigratingHandle σ) : Option (List String) × MigratingHandle σ :=
  let r := h.inner.getColumns E schema table
  let h0 := { h with inner := r.2 }
  match r.1 with
  | none => (none, h0)
  | some ret =>
    if !schema.isMain then (some ret, h0) else
    let info := getBindingInfo B table h0
    match info.1 with
    | none => (none, info.2)
    | some none => (some ret, info.2)
    | some (some value) =>
      let s := info.2.inner.getColumns E value.schemaForSourceDatabase value.sourceTable
      let h1 := { info.2 with inner := s.2 }
      match s.1 with
      | none => (none, h1)
      | some sourceColumns => (some (eraseMissing sourceColumns ret), h1)

/-- The handle as `getColumns` leaves it after its first, base column query. -/
def afterBaseColumns (E : Engine σ) (schema : Schema) (table : String)
    (h : MigratingHandle σ) : MigratingHandle σ :=
  { h with inner := (h.inner.getColumns E schema table).2 }

/-- Method `emplace` of the map from view names to infos: an existing key keeps
its value.  A map is the list of its entries. -/
def emplace (view : String) (info : MigrationInfo) (m : List (String × MigrationInfo)) :
    List (String × MigrationInfo) :=
  if m.any (fun entry => entry.1 == view) then m else m ++ [(view, info)]

/-- First loop of `rebindViews`: the map from unioned-view names to infos. -/
def views2MigratingInfos (migratings : List (String × MigrationInfo)) :
    List (String × MigrationInfo) :=
  migratings.foldl (fun m iter => emplace iter.2.unionedView iter.2 m) []

/-- Loop of `rebindViews` over the existing views: a wanted view is struck off
the map, any other view is dropped; `none` is the early `return false`. -/
def reconcileExisting (E : Engine σ) :
    List String → List (String × MigrationInfo) → MigratingHandle σ →
      Option (List (String × MigrationInfo)) × MigratingHandle σ
  | [], views, h => (some views, h)
  | existingView :: rest, views, h =>
    if views.any (fun entry => entry.1 == existingView) then
      reconcileExisting E rest (views.filter (fun entry => entry.1 != existingView)) h
    else
      let x := h.inner.execute E (Statement.droppingUnionedView existingView)
      if x.1 then reconcileExisting E rest views { h with inner := x.2 }
      else (none, { h with inner := x.2 })

/-- Last loop of `rebindViews`: create every view left in the map; yields
`hasNewView`, or `none` for the early `return false`. -/
def createViews (E : Engine σ) :
    List (String × MigrationInfo) → Bool → MigratingHandle σ →
      Option Bool × MigratingHandle σ
  | [], hasNewView, h => (some hasNewView, h)
  | iter :: rest, _, h =>
    let x := h.inner.execute E (Statement.creatingUnionedView iter.2)
    if x.1 then createViews E rest true { h with inner := x.2 }
    else (none, { h with inner := x.2 })

/-- Function `MigratingHandle::rebindViews`. -/
def rebindViews (E : Engine σ) (migratings : List (String × MigrationInfo))
    (h : MigratingHandle σ) : Bool × MigratingHandle σ :=
  let e := h.inner.tableExists E Schema.temp masterTable
  let h0 := { h with inner := e.2 }
  match e.1 with
  | none => (false, h0)
  | some tempExists =>
    let r : Option (List (String × MigrationInfo)) × MigratingHandle σ :=
      if tempExists then
        let existingViews := h0.inner.getValues E Statement.selectingUnionedView 0
        let h1 := { h0 with inner := existingViews.2 }
        match existingViews.1 with
        | none => (none, h1)
        | some views => reconcileExisting E views (views2MigratingInfos migratings) h1
      else (some (views2MigratingInfos migratings), h0)
    match r.1 with
    | none => (false, r.2)
    | some needed =>
      let c := createViews E needed false r.2
      match c.1 with
      | none => (false, c.2)
      | some hasNewView =>
        if hasNewView && E.isInTransaction c.2.inner.engine then
          (true, { c.2 with m_createdNewViewInTransaction := true })
        else (true, c.2)

/-- Function `MigratingHandle::rollbackTransaction`. -/
def rollbackTransaction (E : Engine σ) (B : Binder σ) (h : MigratingHandle σ) :
    MigratingHandle σ :=
  let h0 := { h with inner := h.inner.rollbackTransaction E }
  if h0.m_createdNewViewInTransaction then
    { inner := h0.inner.record (B.setNeedRebind h0.inner.engine) Event.setNeedRebind
      m_createdNewViewInTransaction := false }
  else h0

end MigratingHandle

/-- A freshly constructed migrating handle on an engine state. -/
def MigratingHandle.create {σ : Type} (engine : σ) : MigratingHandle σ :=
  { inner := { engine := engine, trace := [] }, m_createdNewViewInTransaction := false }

/-! ## Observations on traces -/

/-- An event that reports a failed engine call. -/
def Event.failed : Event → Bool
  | Event.tableExists _ _ none => true
  | Event.getValues _ none => true
  | Event.getColumns _ _ none => true
  | Event.execute _ false => true
  | Event.prepare _ _ false => true
  | Event.step _ false => true
  | Event.beginTransaction false => true
  | Event.commitTransaction false => true
  | _ => false

/-- The attach statement is stepped: the local `handleStatement` of
`MigrateHandle::attach` is the only statement stepped in that slot. -/
def Event.isAttach : Event → Bool
  | Event.step Slot.handleStatement _ => true
  | _ => false

/-- A detach statement is executed. -/
def Event.isDetach : Event → Bool
  | Event.execute (Statement.detach _) _ => true
  | _ => false

/-- The change count read by the last `getChanges()` of a trace, if any. -/
def lastChanges : List Event → Option Int
  | [] => none
  | e :: rest =>
    match lastChanges rest with
    | some n => some n
    | none =>
      match e with
      | Event.getChanges n => some n
      | _ => none

/-- No event of the trace reports a failed engine call. -/
def noFailure (t : List Event) : Bool :=
  t.all (fun e => !e.failed)

/-- What a trace says about the outcome of the per-row work: a failure for
absent, a last change count of zero for true, a non-zero one for false. -/
def Explains (r : Option Bool) (d : List Event) : Prop :=
  match r with
  | none => noFailure d = false
  | some true => noFailure d = true ∧ lastChanges d = some 0
  | some false => noFailure d = true ∧ ∃ n : Int, n ≠ 0 ∧ lastChanges d = some n

/-- Number of successful COMMITs recorded in a trace. -/
def commits (t : List Event) : Nat :=
  t.count (Event.commitTransaction true)

/-- A transaction is begun. -/
def Event.isBegin : Event → Bool
  | Event.beginTransaction _ => true
  | _ => false

/-- A statement dropping a unioned view is executed. -/
def Event.isDropView : Event → Bool
  | Event.execute (Statement.droppingUnionedView _) _ => true
  | _ => false

/-- A statement creating a unioned view is executed. -/
def Event.isCreateView : Event → Bool
  | Event.execute (Statement.creatingUnionedView _) _ => true
  | _ => false

/-! ## A row-level engine

The per-row migrate statement copies one not-yet-migrated source row into the
destination and reports 1 change, or reports 0 changes when none is left; the
per-row delete statement deletes that same row from the source.  Engine calls
fail as scripted by `faults` (one entry per fallible call, none left means no
failure); the clock returns the scripted readings. -/

/-- One pair of tables, the snapshot taken by BEGIN, and the scripts. -/
structure RowWorld where
  source : Option (List Nat)
  destination : Option (List Nat)
  saved : Option (List Nat) × Option (List Nat)
  inTransaction : Bool
  changes : Int
  faults : List Bool
  clock : List ℚ

/-- Number of rows of a table; a missing table has none. -/
def rowCount : Option (List Nat) → Nat
  | none => 0
  | some rows => rows.length

namespace RowWorld

/-- Consume one entry of the fault script. -/
def fault (w : RowWorld) : Bool × RowWorld :=
  match w.faults with
  | [] => (false, w)
  | f :: rest => (f, { w with faults := rest })

/-- Restore the snapshot taken by BEGIN and leave the transaction. -/
def restore (w : RowWorld) : RowWorld :=
  { w with source := w.saved.1, destination := w.saved.2, inTransaction := false }

/-- Step of the per-row migrate statement. -/
def stepMigrate (w : RowWorld) : Bool × RowWorld :=
  match w.source, w.destination with
  | some (row :: _), some rows => (true, { w with destination := some (rows ++ [row]), changes := 1 })
  | some [], some _ => (true, { w with changes := 0 })
  | _, _ => (false, w)

/-- Step of the per-row delete statement. -/
def stepRemove (w : RowWorld) : Bool × RowWorld :=
  match w.source with
  | some (_ :: rest) => (true, { w with source := some rest, changes := 1 })
  | some [] => (true, { w with changes := 0 })
  | none => (false, w)

end RowWorld

/-- The pair (source, destination) of a row world. -/
def tables (w : RowWorld) : Option (List Nat) × Option (List Nat) :=
  (w.source, w.destination)

/-- Between two table pairs, the first `k` source rows have moved to the end of
the destination, in order, and nothing else has changed. -/
def Moved (k : Nat) (t t1 : Option (List Nat) × Option (List Nat)) : Prop :=
  t1.1 = t.1.map (List.drop k)
  ∧ t1.2 = t.2.map (fun rows => rows ++ (t.1.getD []).take k)
  ∧ k ≤ rowCount t.1
  ∧ (t.2 = none → k = 0)

/-- The row-level engine. -/
def rowEngine : Engine RowWorld where
  tableExists := fun _ _ w =>
    let f := w.fault
    if f.1 then (none, f.2) else (some f.2.destination.isSome, f.2)
  getValues := fun _ _ w => (some [], w)
  getColumns := fun _ _ w => (some [], w)
  execute := fun statement w =>
    let f := w.fault
    if f.1 then (false, f.2) else
      match statement with
      | Statement.droppingSourceTable _ => (true, { f.2 with source := none })
      | _ => (true, f.2)
  prepare := fun _ statement w =>
    let f := w.fault
    if f.1 then (false, f.2) else
      match statement with
      | Statement.migratingOneRow _ => (f.2.source.isSome && f.2.destination.isSome, f.2)
      | Statement.deletingMigratedOneRow _ => (f.2.source.isSome, f.2)
      | _ => (true, f.2)
  bindBLOB := fun _ _ w => w
  step := fun slot w =>
    let f := w.fault
    if f.1 then (false, f.2) else
      match slot with
      | Slot.migrateStatement => f.2.stepMigrate
      | Slot.removeMigratedStatement => f.2.stepRemove
      | Slot.handleStatement => (true, f.2)
  reset := fun _ w => w
  finalize := fun _ w => w
  getChanges := fun w => w.changes
  getRawCipherKey := fun _ _ => []
  beginTransaction := fun w =>
    let f := w.fault
    if f.1 then (false, f.2)
    else (true, { f.2 with saved := (f.2.source, f.2.destination), inTransaction := true })
  commitOrRollbackTransaction := fun w =>
    let f := w.fault
    if f.1 then (false, f.2.restore) else (true, { f.2 with inTransaction := false })
  rollbackTransaction := fun w => w.restore
  isInTransaction := fun w => w.inTransaction
  now := fun w =>
    match w.clock with
    | [] => (0, w)
    | reading :: rest => (reading, { w with clock := rest })

/-! ## A view-level engine

The temp schema is the set of its unioned-view names, updated by the drop and
create statements; `none` stands for a temp schema whose master table does not
exist yet.  BEGIN takes a snapshot of the views, which a rollback restores.
Calls fail as scripted by `faults`. -/

/-- The unioned views of the temp schema, the snapshot taken by BEGIN, and the
fault script. -/
structure ViewWorld where
  views : Option (List String)
  saved : Option (List String)
  inTransaction : Bool
  faults : List Bool

namespace ViewWorld

/-- Consume one entry of the fault script. -/
def fault (w : ViewWorld) : Bool × ViewWorld :=
  match w.faults with
  | [] => (false, w)
  | f :: rest => (f, { w with faults := rest })

/-- Names of the unioned views that exist. -/
def names (w : ViewWorld) : List String :=
  w.views.getD []

end ViewWorld

/-- The view-level engine.  A listing of the views is a set (no name twice);
dropping a view removes its name, creating a view adds it and fails when the
name exists already. -/
def viewEngine : Engine ViewWorld where
  tableExists := fun _ _ w =>
    let f := w.fault
    if f.1 then (none, f.2) else (some f.2.views.isSome, f.2)
  getValues := fun _ _ w =>
    let f := w.fault
    if f.1 then (none, f.2) else (some f.2.names.dedup, f.2)
  getColumns := fun _ _ w => (some [], w)
  execute := fun statement w =>
    let f := w.fault
    if f.1 then (false, f.2) else
      match statement with
      | Statement.droppingUnionedView view =>
        (true, { f.2 with views := f.2.views.map (List.filter (fun v => v != view)) })
      | Statement.creatingUnionedView info =>
        if info.unionedView ∈ f.2.names then (false, f.2)
        else (true, { f.2 with views := some (info.unionedView :: f.2.names) })
      | _ => (true, f.2)
  prepare := fun _ _ w => (true, w)
  bindBLOB := fun _ _ w => w
  step := fun _ w => (true, w)
  reset := fun _ w => w
  finalize := fun _ w => w
  getChanges := fun _ => 0
  getRawCipherKey := fun _ _ => []
  beginTransaction := fun w => (true, { w with saved := w.views, inTransaction := true })
  commitOrRollbackTransaction := fun w => (true, { w with inTransaction := false })
  rollbackTransaction := fun w => { w with views := w.saved, inTransaction := false }
  isInTransaction := fun w => w.inTransaction
  now := fun w => (0, w)

/-- A registry over a view world that has nothing bound. -/
def exampleViewBinder : Binder ViewWorld where
  getBoundInfo := fun _ _ => none
  startBinding := fun h => h
  bindTable := fun _ h => (some none, h)
  stopBinding := fun _ h => (true, h)
  setNeedRebind := fun w => w

/-- A freshly constructed migrating handle on a view world; when it is inside
a transaction, the transaction began on the given views. -/
def exampleViewHandle (views : Option (List String)) (inTransaction : Bool)
    (faults : List Bool) : MigratingHandle ViewWorld :=
  MigratingHandle.create
    { views := views, saved := views, inTransaction := inTransaction, faults := faults }

/-- Info of table "a", with unioned view "wcdb_union_a". -/
def exampleInfoA : MigrationInfo :=
  { address := 2
    table := "a"
    sourceTable := "a_old"
    schemaForSourceDatabase := Schema.main
    sourceCipher := []
    needRawSourceCipher := false
    unionedView := "wcdb_union_a" }

/-- Info of table "b", with unioned view "wcdb_union_b". -/
def exampleInfoB : MigrationInfo :=
  { address := 3
    table := "b"
    sourceTable := "b_old"
    schemaForSourceDatabase := Schema.main
    sourceCipher := []
    needRawSourceCipher := false
    unionedView := "wcdb_union_b" }

/-- The map of the two tables "a" and "b" under migration. -/
def exampleMigratings : List (String × MigrationInfo) :=
  [("a", exampleInfoA), ("b", exampleInfoB)]

/-! ## Concrete inputs used to exercise the theorems -/

/-- Constants: 30 ms expected, 5 ms initial, ten sample slots. -/
def exampleConst : CoreConst :=
  { MigrateMaxExpectingDuration := 30, MigrateMaxInitializeDuration := 5, numberOfSamples := 10 }

/-- A cross-database info without cipher. -/
def exampleInfo : MigrationInfo :=
  { address := 1
    table := "message"
    sourceTable := "message_old"
    schemaForSourceDatabase := Schema.named "wcdb_migration_1"
    sourceCipher := []
    needRawSourceCipher := false
    unionedView := "wcdb_union_message" }

/-- A row world outside any transaction. -/
def exampleWorld (source destination : Option (List Nat)) (faults : List Bool)
    (clock : List ℚ) : RowWorld :=
  { source := source
    destination := destination
    saved := (source, destination)
    inTransaction := false
    changes := 0
    faults := faults
    clock := clock }

/-- A migrate handle on a row world inside a transaction, with both per-row
statements prepared for `exampleInfo`. -/
def examplePreparedHandle (source destination : Option (List Nat)) (faults : List Bool) :
    MigrateHandle RowWorld :=
  { inner :=
      { engine :=
          { source := source
            destination := destination
            saved := (source, destination)
            inTransaction := true
            changes := 0
            faults := faults
            clock := [] }
        trace := [] }
    m_attached := exampleInfo.schemaForSourceDatabase
    m_migratingInfo := some exampleInfo
    m_migrateStatement := true
    m_removeMigratedStatement := true
    m_samples := List.replicate exampleConst.numberOfSamples Sample.zero
    m_samplePointing := 0 }

/-- A freshly constructed migrate handle on a row world. -/
def exampleHandle (source destination : Option (List Nat)) (faults : List Bool)
    (clock : List ℚ) : MigrateHandle RowWorld :=
  MigrateHandle.create exampleConst (exampleWorld source destination faults clock)

/-- An engine whose destination table has columns a, b, c and whose source
tables have columns b, c, d. -/
def exampleColumnEngine : Engine RowWorld :=
  { rowEngine with
    getColumns := fun schema _ w =>
      (some (if schema.isMain then ["a", "b", "c"] else ["b", "c", "d"]), w) }

/-- A registry that has table "message" bound to `exampleInfo` and no other
table under migration. -/
def exampleBinder : Binder RowWorld where
  getBoundInfo := fun table _ => if table = "message" then some exampleInfo else none
  startBinding := fun h => h
  bindTable := fun _ h => (some none, h)
  stopBinding := fun _ h => (true, h)
  setNeedRebind := fun w => w

/-! ## Pacing: the budget computed from the sample ring -/

theorem foldl_replicate_zero (R : ℚ → Double) (totals : Double × Double) (k : Nat) :
    (List.replicate k Sample.zero).foldl (accumulateSample R) totals = totals := by
  induction k with
  | zero => rfl
  | succ k ih =>
    have hz : ¬ (Sample.zero.timeIntervalWithinTransaction > 0
        ∧ Sample.zero.timeIntervalWholeTransaction > 0) := by
      simp [Sample.zero]
    rw [List.replicate_succ, List.foldl_cons]
    simp only [accumulateSample, if_neg hz]
    exact ih

theorem guard_range (maxD initD : ℚ) (d : Double) (hInit : 0 < initD) (hLe : initD ≤ maxD) :
    ∃ b : ℚ, (if d.gt maxD || d.le 0 || d.isnan then Double.finite initD else d)
        = Double.finite b ∧ 0 < b ∧ b ≤ maxD := by
  cases d with
  | finite q =>
    by_cases h1 : q > maxD
    · exact ⟨initD, by simp [Double.gt, h1], hInit, hLe⟩
    · by_cases h2 : q ≤ 0
      · exact ⟨initD, by simp [Double.gt, Double.le, h2], hInit, hLe⟩
      · refine ⟨q, ?_, not_le.mp h2, not_lt.mp h1⟩
        simp only [Double.gt, Double.le, Double.isnan, decide_eq_true_eq, Bool.or_false]
        rw [if_neg]
        simp only [Bool.or_eq_true, decide_eq_true_eq, not_or]
        exact ⟨h1, h2⟩
  | posInf => exact ⟨initD, by simp [Double.gt], hInit, hLe⟩
  | negInf => exact ⟨initD, by simp [Double.gt, Double.le], hInit, hLe⟩
  | nan => exact ⟨initD, by simp [Double.gt, Double.le, Double.isnan], hInit, hLe⟩

theorem guard_zero_divisor (R : ℚ → Double) (maxD initD : ℚ) (d : Double) :
    (if (Double.div R d (Double.finite 0)).gt maxD || (Double.div R d (Double.finite 0)).le 0
        || (Double.div R d (Double.finite 0)).isnan then Double.finite initD
      else Double.div R d (Double.finite 0)) = Double.finite initD := by
  cases d with
  | finite a =>
    by_cases ha : a = 0
    · simp [Double.div, ha, Double.gt, Double.le, Double.isnan]
    · by_cases hp : 0 < a
      · simp [Double.div, ha, hp, Double.gt, Double.le, Double.isnan]
      · simp [Double.div, ha, hp, Double.gt, Double.le, Double.isnan]
  | posInf => simp [Double.div, Double.gt, Double.le, Double.isnan]
  | negInf => simp [Double.div, Double.gt, Double.le, Double.isnan]
  | nan => simp [Double.div, Double.gt, Double.le, Double.isnan]

theorem calculate_zero_ring (R : ℚ → Double) (C : CoreConst) (k : Nat) :
    calculateTimeIntervalWithinTransaction R C (List.replicate k Sample.zero)
      = Double.finite C.MigrateMaxInitializeDuration := by
  unfold calculateTimeIntervalWithinTransaction
  simp only [foldl_replicate_zero]
  exact guard_zero_divisor R _ _ _

/-- C3: for every content of the sample ring, and whatever the rounding of the
`double` operations (exact rationals, IEEE double precision, or any other),
the budget computed by `calculateTimeIntervalWithinTransaction` is a finite
value `b` with `0 < b ≤ MigrateMaxExpectingDuration`, provided
`0 < MigrateMaxInitializeDuration ≤ MigrateMaxExpectingDuration`. -/
theorem budget_in_range (R : ℚ → Double) (C : CoreConst) (ring : List Sample)
    (hInit : 0 < C.MigrateMaxInitializeDuration)
    (hLe : C.MigrateMaxInitializeDuration ≤ C.MigrateMaxExpectingDuration) :
    ∃ b : ℚ, calculateTimeIntervalWithinTransaction R C ring = Double.finite b
      ∧ 0 < b ∧ b ≤ C.MigrateMaxExpectingDuration := by
  unfold calculateTimeIntervalWithinTransaction
  exact guard_range _ _ _ hInit hLe

theorem budget_in_range_witness :
    (0 : ℚ) < 5 ∧ (5 : ℚ) ≤ 30 ∧
    (∃ b : ℚ, calculateTimeIntervalWithinTransaction exactRounding
        { MigrateMaxExpectingDuration := 30, MigrateMaxInitializeDuration := 5,
          numberOfSamples := 3 }
        [⟨-1, 7⟩, ⟨4, 2⟩, ⟨0, 0⟩] = Double.finite b ∧ 0 < b ∧ b ≤ 30)
    ∧ (∃ b : ℚ, calculateTimeIntervalWithinTransaction binary64
        { MigrateMaxExpectingDuration := 30, MigrateMaxInitializeDuration := 5,
          numberOfSamples := 3 }
        [⟨-1, 7⟩, ⟨4, 2⟩, ⟨0, 0⟩] = Double.finite b ∧ 0 < b ∧ b ≤ 30) :=
  ⟨by norm_num, by norm_num,
    budget_in_range exactRounding
      { MigrateMaxExpectingDuration := 30, MigrateMaxInitializeDuration := 5,
        numberOfSamples := 3 }
      [⟨-1, 7⟩, ⟨4, 2⟩, ⟨0, 0⟩] (by norm_num) (by norm_num),
    budget_in_range binary64
      { MigrateMaxExpectingDuration := 30, MigrateMaxInitializeDuration := 5,
        numberOfSamples := 3 }
      [⟨-1, 7⟩, ⟨4, 2⟩, ⟨0, 0⟩] (by norm_num) (by norm_num)⟩

theorem calculate_fresh :
    calculateTimeIntervalWithinTransaction binary64
      { MigrateMaxExpectingDuration := 30, MigrateMaxInitializeDuration := 5,
        numberOfSamples := 10 }
      [⟨0, 0⟩, ⟨0, 0⟩, ⟨0, 0⟩, ⟨0, 0⟩, ⟨0, 0⟩, ⟨0, 0⟩, ⟨0, 0⟩, ⟨0, 0⟩, ⟨0, 0⟩, ⟨0, 0⟩]
      = Double.finite 5 :=
  calculate_zero_ring binary64 exampleConst 10

theorem rotate_set_succ {α : Type} (l : List α) (p : Nat) (x : α) (hp : p < l.length) :
    (l.set p x).rotate (p + 1) = (l.rotate p).tail ++ [x] := by
  have h1 : l.set p x = (l.take p ++ [x]) ++ l.drop (p + 1) := by
    rw [List.set_eq_take_append_cons_drop, if_pos hp]; simp
  have h2 : (l.take p ++ [x]).length = p + 1 := by
    simp [List.length_take, Nat.min_eq_left (Nat.le_of_lt hp)]
  have h3 : l.rotate p = l.drop p ++ l.take p :=
    List.rotate_eq_drop_append_take (Nat.le_of_lt hp)
  have h4 : l.drop p = l[p] :: l.drop (p + 1) := List.drop_eq_getElem_cons hp
  have h5 : (l.take p ++ [x] ++ l.drop (p + 1)).rotate (l.take p ++ [x]).length
      = l.drop (p + 1) ++ (l.take p ++ [x]) := List.rotate_append_length_eq _ _
  rw [h2] at h5
  rw [h1, h5, h3, h4]
  simp only [List.cons_append, List.tail_cons, List.append_assoc]

theorem succ_pointing (N k : Nat) (hN : 0 < N) :
    (if k % N + 1 ≥ N then 0 else k % N + 1) = (k + 1) % N := by
  have hlt : k % N < N := Nat.mod_lt _ hN
  have hmod : (k % N + 1) % N = (k + 1) % N := (Nat.mod_modEq k N).add_right 1
  by_cases h : k % N + 1 ≥ N
  · have he : k % N + 1 = N := by omega
    rw [if_pos h]
    rw [he, Nat.mod_self] at hmod
    exact hmod
  · rw [if_neg h]
    rw [Nat.mod_eq_of_lt (not_le.mp h)] at hmod
    exact hmod

theorem addSamples_append {σ : Type} (C : CoreConst) (xs : List Sample) (x : Sample)
    (h : MigrateHandle σ) :
    MigrateHandle.addSamples C (xs ++ [x]) h =
      MigrateHandle.addSample C x.timeIntervalWithinTransaction x.timeIntervalWholeTransaction
        (MigrateHandle.addSamples C xs h) := by
  simp [MigrateHandle.addSamples, List.foldl_append]

theorem ring_shift (N k : Nat) (xs : List Sample) (x : Sample) (hN : 0 < N)
    (hk : xs.length = k) :
    (List.replicate (N - k) Sample.zero ++ xs.drop (k - N)).tail ++ [x] =
      List.replicate (N - (k + 1)) Sample.zero ++ (xs ++ [x]).drop (k + 1 - N) := by
  by_cases hlt : k < N
  · have h1 : N - k = (N - (k + 1)) + 1 := by omega
    have h2 : k - N = 0 := by omega
    have h3 : k + 1 - N = 0 := by omega
    rw [h1, h2, h3, List.replicate_succ]
    simp
  · have h1 : N - k = 0 := by omega
    have h2 : N - (k + 1) = 0 := by omega
    have h3 : k + 1 - N = (k - N) + 1 := by omega
    have h4 : (k - N) + 1 ≤ xs.length := by omega
    rw [h1, h2, h3, List.drop_append_of_le_length h4]
    simp [List.tail_drop]

theorem addSamples_ring {σ : Type} (C : CoreConst) (engine : σ) (xs : List Sample)
    (hN : 0 < C.numberOfSamples) :
    (MigrateHandle.addSamples C xs (MigrateHandle.create C engine)).m_samples.length
        = C.numberOfSamples
    ∧ (MigrateHandle.addSamples C xs (MigrateHandle.create C engine)).m_samplePointing
        = xs.length % C.numberOfSamples
    ∧ (MigrateHandle.addSamples C xs (MigrateHandle.create C engine)).m_samples.rotate
        (MigrateHandle.addSamples C xs (MigrateHandle.create C engine)).m_samplePointing
        = List.replicate (C.numberOfSamples - xs.length) Sample.zero
            ++ xs.drop (xs.length - C.numberOfSamples) := by
  induction xs using List.reverseRecOn with
  | nil =>
    simp [MigrateHandle.addSamples, MigrateHandle.create]
  | append_singleton xs x ih =>
    obtain ⟨hlen, hp, hrot⟩ := ih
    rw [addSamples_append]
    have hlt : xs.length % C.numberOfSamples < C.numberOfSamples := Nat.mod_lt _ hN
    have hpoint : (MigrateHandle.addSample C x.timeIntervalWithinTransaction
        x.timeIntervalWholeTransaction
        (MigrateHandle.addSamples C xs (MigrateHandle.create C engine))).m_samplePointing
        = (xs.length + 1) % C.numberOfSamples := by
      simp only [MigrateHandle.addSample, hp]
      exact succ_pointing _ _ hN
    have hsamples : (MigrateHandle.addSample C x.timeIntervalWithinTransaction
        x.timeIntervalWholeTransaction
        (MigrateHandle.addSamples C xs (MigrateHandle.create C engine))).m_samples
        = (MigrateHandle.addSamples C xs (MigrateHandle.create C engine)).m_samples.set
            (xs.length % C.numberOfSamples) x := by
      simp only [MigrateHandle.addSample, hp]
    refine ⟨?_, ?_, ?_⟩
    · rw [hsamples, List.length_set, hlen]
    · rw [hpoint, List.length_append, List.length_singleton]
    · rw [hpoint, hsamples]
      have hlen2 : ((MigrateHandle.addSamples C xs
          (MigrateHandle.create C engine)).m_samples.set
            (xs.length % C.numberOfSamples) x).length = C.numberOfSamples := by
        rw [List.length_set, hlen]
      have hmod : (xs.length % C.numberOfSamples + 1) % C.numberOfSamples
          = (xs.length + 1) % C.numberOfSamples := (Nat.mod_modEq _ _).add_right 1
      have hr : ∀ l : List Sample, l.length = C.numberOfSamples →
          l.rotate ((xs.length + 1) % C.numberOfSamples)
            = l.rotate (xs.length % C.numberOfSamples + 1) := by
        intro l hl
        rw [← hmod, ← hl, List.rotate_mod]
      rw [hr _ hlen2, rotate_set_succ _ _ _ (by rw [hlen]; exact hlt)]
      rw [hp] at hrot
      rw [hrot, List.length_append, List.length_singleton]
      exact ring_shift _ _ xs x hN rfl

/-- C6: starting from the constructed handle and adding samples that satisfy
`0 < inner < outer`, the ring keeps its `numberOfSamples` slots and so holds
at most that many non-zero entries, the write pointer stays below
`numberOfSamples` (it is the number of calls modulo `numberOfSamples`), every
slot is zero or satisfies `0 < inner < outer`, and read from the write pointer
on the ring is the unfilled zero slots followed by the last
`min k numberOfSamples` samples in the order they were added; in particular
the non-zero slots are exactly those samples. -/
theorem sample_ring_invariant {σ : Type} (C : CoreConst) (engine : σ) (xs : List Sample)
    (hN : 0 < C.numberOfSamples)
    (hpre : ∀ s ∈ xs, 0 < s.timeIntervalWithinTransaction
      ∧ s.timeIntervalWithinTransaction < s.timeIntervalWholeTransaction) :
    (MigrateHandle.addSamples C xs (MigrateHandle.create C engine)).m_samples.length
        = C.numberOfSamples
    ∧ ((MigrateHandle.addSamples C xs (MigrateHandle.create C engine)).m_samples.filter
        (fun s => decide (s ≠ Sample.zero))).length ≤ C.numberOfSamples
    ∧ (MigrateHandle.addSamples C xs (MigrateHandle.create C engine)).m_samplePointing
        < C.numberOfSamples
    ∧ (MigrateHandle.addSamples C xs (MigrateHandle.create C engine)).m_samplePointing
        = xs.length % C.numberOfSamples
    ∧ (∀ s ∈ (MigrateHandle.addSamples C xs (MigrateHandle.create C engine)).m_samples,
        s = Sample.zero ∨ (0 < s.timeIntervalWithinTransaction
          ∧ s.timeIntervalWithinTransaction < s.timeIntervalWholeTransaction))
    ∧ (MigrateHandle.addSamples C xs (MigrateHandle.create C engine)).m_samples.rotate
        (MigrateHandle.addSamples C xs (MigrateHandle.create C engine)).m_samplePointing
        = List.replicate (C.numberOfSamples - min xs.length C.numberOfSamples) Sample.zero
            ++ xs.drop (xs.length - min xs.length C.numberOfSamples)
    ∧ ((MigrateHandle.addSamples C xs (MigrateHandle.create C engine)).m_samples.filter
        (fun s => decide (s ≠ Sample.zero))).Perm
          (xs.drop (xs.length - min xs.length C.numberOfSamples)) := by
  obtain ⟨hlen, hp, hrot⟩ := addSamples_ring C engine xs hN
  have e1 : C.numberOfSamples - min xs.length C.numberOfSamples
      = C.numberOfSamples - xs.length := by omega
  have e2 : xs.length - min xs.length C.numberOfSamples
      = xs.length - C.numberOfSamples := by omega
  rw [e1, e2]
  have hnz : ∀ s ∈ xs.drop (xs.length - C.numberOfSamples), s ≠ Sample.zero := by
    intro s hs hz
    have h1 := (hpre s (List.mem_of_mem_drop hs)).1
    rw [hz] at h1
    exact absurd h1 (by simp [Sample.zero])
  have hfilter : (List.replicate (C.numberOfSamples - xs.length) Sample.zero
      ++ xs.drop (xs.length - C.numberOfSamples)).filter (fun s => decide (s ≠ Sample.zero))
      = xs.drop (xs.length - C.numberOfSamples) := by
    rw [List.filter_append, List.filter_replicate_of_neg (by simp), List.nil_append]
    apply List.filter_eq_self.mpr
    intro s hs
    simpa using hnz s hs
  refine ⟨hlen, ?_, ?_, hp, ?_, hrot, ?_⟩
  · rw [← hlen]
    exact List.length_filter_le _ _
  · rw [hp]
    exact Nat.mod_lt _ hN
  · intro s hs
    have hs2 : s ∈ (MigrateHandle.addSamples C xs (MigrateHandle.create C engine)).m_samples.rotate
        (MigrateHandle.addSamples C xs (MigrateHandle.create C engine)).m_samplePointing :=
      List.mem_rotate.mpr hs
    rw [hrot] at hs2
    rcases List.mem_append.mp hs2 with h1 | h1
    · exact Or.inl (List.eq_of_mem_replicate h1)
    · exact Or.inr (hpre s (List.mem_of_mem_drop h1))
  · have hperm := (List.rotate_perm
        (MigrateHandle.addSamples C xs (MigrateHandle.create C engine)).m_samples
        (MigrateHandle.addSamples C xs (MigrateHandle.create C engine)).m_samplePointing).filter
          (fun s => decide (s ≠ Sample.zero))
    rw [hrot, hfilter] at hperm
    exact hperm.symm

theorem sample_ring_invariant_witness :
    (0 < 3)
    ∧ (MigrateHandle.addSamples
        { MigrateMaxExpectingDuration := 30, MigrateMaxInitializeDuration := 5,
          numberOfSamples := 3 }
        [⟨1, 2⟩, ⟨3, 4⟩, ⟨5, 6⟩, ⟨7, 8⟩]
        (MigrateHandle.create
          { MigrateMaxExpectingDuration := 30, MigrateMaxInitializeDuration := 5,
            numberOfSamples := 3 } ())).m_samplePointing < 3 :=
  ⟨by decide,
   (sample_ring_invariant
      { MigrateMaxExpectingDuration := 30, MigrateMaxInitializeDuration := 5,
        numberOfSamples := 3 } () [⟨1, 2⟩, ⟨3, 4⟩, ⟨5, 6⟩, ⟨7, 8⟩] (by decide)
      (by
        intro s hs
        simp only [List.mem_cons, List.mem_singleton, List.not_mem_nil, or_false] at hs
        rcases hs with rfl | rfl | rfl | rfl <;> norm_num)).2.2.1⟩

/-! ## Attach manager -/

theorem detach_trace {σ : Type} (E : Engine σ) (h : MigrateHandle σ) :
    ∃ d : List Event, (h.detach E).2.inner.trace = h.inner.trace ++ d
      ∧ d.filter Event.isAttach = [] := by
  unfold MigrateHandle.detach
  by_cases hm : h.m_attached.isMain = true
  · refine ⟨[], ?_, rfl⟩
    simp [hm]
  · have hm2 : h.m_attached.isMain = false := by simpa using hm
    refine ⟨[Event.execute (Statement.detach h.m_attached)
        (E.execute (Statement.detach h.m_attached) h.inner.engine).1], ?_, ?_⟩
    · simp only [hm2, InnerHandle.execute, InnerHandle.record, Bool.not_false, if_true]
      split_ifs <;> rfl
    · simp [List.filter, Event.isAttach]

theorem reAttach_same {σ : Type} (E : Engine σ) (info : MigrationInfo) (g : MigrateHandle σ)
    (hsame : g.m_attached.isTargetingSameSchema info.schemaForSourceDatabase = true) :
    g.reAttach E info =
      (true, MigrateHandle.finalizeMigrationStatement E { g with m_migratingInfo := none }) := by
  simp [MigrateHandle.reAttach, hsame]

theorem attach_succeed {σ : Type} (E : Engine σ) (info : MigrationInfo) (h : MigrateHandle σ)
    (hok : (h.attach E info).1 = true) :
    (h.attach E info).2.m_attached = info.schemaForSourceDatabase
    ∧ ∃ d : List Event, (h.attach E info).2.inner.trace = h.inner.trace ++ d
      ∧ (d.filter Event.isAttach).length = 1 := by
  unfold MigrateHandle.attach at hok ⊢
  simp only [InnerHandle.prepare, InnerHandle.step, InnerHandle.finalize, InnerHandle.bindBLOB,
    InnerHandle.record] at hok ⊢
  split_ifs at hok ⊢ <;>
    simp_all [List.filter, Event.isAttach]


/-- C9: `reAttach(info); reAttach(info)` performs the attach exactly once.  Both
calls leave the migrating info null and the per-row statements finalized; when
the first call succeeds from a state whose attached schema is not the source
schema of `info`, it steps the attach statement once and leaves that schema
attached, and the second call returns true, keeps the attached schema and only
finalizes the two per-row statements: no detach, no attach. -/
theorem reAttach_twice {σ : Type} (E : Engine σ) (info : MigrationInfo) (h : MigrateHandle σ) :
    ((h.reAttach E info).2.m_migratingInfo = none
      ∧ (h.reAttach E info).2.m_migrateStatement = false
      ∧ (h.reAttach E info).2.m_removeMigratedStatement = false)
    ∧ (((h.reAttach E info).2.reAttach E info).2.m_migratingInfo = none
      ∧ ((h.reAttach E info).2.reAttach E info).2.m_migrateStatement = false
      ∧ ((h.reAttach E info).2.reAttach E info).2.m_removeMigratedStatement = false)
    ∧ (h.m_attached ≠ info.schemaForSourceDatabase → (h.reAttach E info).1 = true →
        (h.reAttach E info).2.m_attached = info.schemaForSourceDatabase
        ∧ (∃ first : List Event,
            (h.reAttach E info).2.inner.trace = h.inner.trace ++ first
            ∧ (first.filter Event.isAttach).length = 1)
        ∧ ((h.reAttach E info).2.reAttach E info).1 = true
        ∧ ((h.reAttach E info).2.reAttach E info).2.m_attached
            = (h.reAttach E info).2.m_attached
        ∧ ((h.reAttach E info).2.reAttach E info).2.inner.trace
            = (h.reAttach E info).2.inner.trace
              ++ [Event.finalize Slot.migrateStatement,
                  Event.finalize Slot.removeMigratedStatement]
        ∧ (((h.reAttach E info).2.reAttach E info).2.inner.trace.drop
              (h.reAttach E info).2.inner.trace.length).filter
            (fun e => e.isAttach || e.isDetach) = []) := by
  refine ⟨⟨rfl, rfl, rfl⟩, ⟨rfl, rfl, rfl⟩, ?_⟩
  intro hne hok
  have hsame : h.m_attached.isTargetingSameSchema info.schemaForSourceDatabase = false := by
    simp [Schema.isTargetingSameSchema, hne]
  have hfirst : h.reAttach E info =
      (((h.detach E).1 && ((h.detach E).2.attach E info).1),
        MigrateHandle.finalizeMigrationStatement E
          { (if (h.detach E).1 then (h.detach E).2.attach E info
              else (false, (h.detach E).2)).2 with m_migratingInfo := none }) := by
    simp only [MigrateHandle.reAttach, hsame, Bool.not_false, if_true]
    cases hd : (h.detach E).1 <;> simp
  rw [hfirst] at hok
  simp only [Bool.and_eq_true] at hok
  obtain ⟨hd, ha⟩ := hok
  obtain ⟨hatt, da, hta, hca⟩ := attach_succeed E info (h.detach E).2 ha
  obtain ⟨dd, htd, hcd⟩ := detach_trace E h
  have hsnd : (h.reAttach E info).2 =
      MigrateHandle.finalizeMigrationStatement E
        { ((h.detach E).2.attach E info).2 with m_migratingInfo := none } := by
    rw [hfirst]; simp only [hd, if_true]
  have hattached : (h.reAttach E info).2.m_attached = info.schemaForSourceDatabase := by
    rw [hsnd]; exact hatt
  have hsame2 : (h.reAttach E info).2.m_attached.isTargetingSameSchema
      info.schemaForSourceDatabase = true := by
    rw [hattached]; simp [Schema.isTargetingSameSchema]
  have hsecond : ((h.reAttach E info).2.reAttach E info).2.inner.trace
      = (h.reAttach E info).2.inner.trace
        ++ [Event.finalize Slot.migrateStatement,
            Event.finalize Slot.removeMigratedStatement] := by
    rw [reAttach_same E info _ hsame2]
    simp [MigrateHandle.finalizeMigrationStatement, InnerHandle.finalize, InnerHandle.record]
  refine ⟨hattached, ?_, ?_, ?_, hsecond, ?_⟩
  · refine ⟨dd ++ da ++ [Event.finalize Slot.migrateStatement,
      Event.finalize Slot.removeMigratedStatement], ?_, ?_⟩
    · rw [hsnd]
      simp only [MigrateHandle.finalizeMigrationStatement, InnerHandle.finalize,
        InnerHandle.record, hta, htd, List.append_assoc]
      rfl
    · simp [List.filter_append, hcd, hca, List.filter, Event.isAttach]
  · rw [reAttach_same E info _ hsame2]
  · rw [reAttach_same E info _ hsame2]; rfl
  · rw [hsecond, List.drop_left]
    rfl

theorem reAttach_twice_witness :
    (exampleHandle (some [1, 2]) (some []) [] []).m_attached
        ≠ exampleInfo.schemaForSourceDatabase
    ∧ ((exampleHandle (some [1, 2]) (some []) [] []).reAttach rowEngine exampleInfo).1 = true
    ∧ (((exampleHandle (some [1, 2]) (some []) [] []).reAttach rowEngine exampleInfo).2.reAttach
        rowEngine exampleInfo).1 = true :=
  ⟨by decide, by rfl,
    ((reAttach_twice rowEngine exampleInfo (exampleHandle (some [1, 2]) (some []) [] [])).2.2
      (by decide) (by rfl)).2.2.1⟩

/-! ## migrateRows: the destination short-circuit -/

/-- C10: when the destination-table existence check succeeds and reports that
the table does not exist, `migrateRows` returns true whatever the source
holds, and the handle is unchanged: attached schema, migrating info, prepared
flags and sample ring are as before, and the only engine call made is the
existence check itself, so no transaction is begun. -/
theorem migrateRows_destination_missing {σ : Type} (E : Engine σ) (C : CoreConst)
    (fuel : Nat) (info : MigrationInfo) (h : MigrateHandle σ)
    (hmissing : (E.tableExists Schema.main info.table h.inner.engine).1 = some false) :
    ∃ h1 : MigrateHandle σ, h.migrateRows E C fuel info = some (some true, h1)
      ∧ h1.m_attached = h.m_attached
      ∧ h1.m_migratingInfo = h.m_migratingInfo
      ∧ h1.m_migrateStatement = h.m_migrateStatement
      ∧ h1.m_removeMigratedStatement = h.m_removeMigratedStatement
      ∧ h1.m_samples = h.m_samples
      ∧ h1.m_samplePointing = h.m_samplePointing
      ∧ h1.inner.engine = (E.tableExists Schema.main info.table h.inner.engine).2
      ∧ h1.inner.trace
          = h.inner.trace ++ [Event.tableExists Schema.main info.table (some false)]
      ∧ (h1.inner.trace.drop h.inner.trace.length).filter Event.isBegin = [] := by
  refine ⟨{ h with inner := (h.inner.tableExists E Schema.main info.table).2 }, ?_, rfl, rfl,
    rfl, rfl, rfl, rfl, rfl, ?_, ?_⟩
  · simp [MigrateHandle.migrateRows, InnerHandle.tableExists, hmissing]
  · simp [InnerHandle.tableExists, InnerHandle.record, hmissing]
  · simp [InnerHandle.tableExists, InnerHandle.record, hmissing, List.filter, Event.isBegin]

theorem migrateRows_destination_missing_witness :
    (rowEngine.tableExists Schema.main exampleInfo.table
        (exampleHandle (some [1, 2, 3]) none [] []).inner.engine).1 = some false
    ∧ ∃ h1 : MigrateHandle RowWorld,
        (exampleHandle (some [1, 2, 3]) none [] []).migrateRows rowEngine exampleConst 0
            exampleInfo = some (some true, h1)
        ∧ h1.inner.engine.source = some [1, 2, 3] :=
  ⟨by rfl,
    (migrateRows_destination_missing rowEngine exampleConst 0 exampleInfo
      (exampleHandle (some [1, 2, 3]) none [] []) (by rfl)).elim
      (fun h1 hh => ⟨h1, hh.1, by rw [hh.2.2.2.2.2.2.2.1]; rfl⟩)⟩

/-! ## Transaction hooks -/

theorem reconcileExisting_frame {σ : Type} (E : Engine σ) (existing : List String) :
    ∀ (m : List (String × MigrationInfo)) (h : MigratingHandle σ),
      (MigratingHandle.reconcileExisting E existing m h).2.m_createdNewViewInTransaction
        = h.m_createdNewViewInTransaction
      ∧ ∃ d : List Event,
          (MigratingHandle.reconcileExisting E existing m h).2.inner.trace = h.inner.trace ++ d
          ∧ ∀ e ∈ d, e.isCreateView = false := by
  induction existing with
  | nil =>
    intro m h
    exact ⟨rfl, [], by simp [MigratingHandle.reconcileExisting], by simp⟩
  | cons v rest ih =>
    intro m h
    unfold MigratingHandle.reconcileExisting
    by_cases hv : m.any (fun entry => entry.1 == v) = true
    · rw [if_pos hv]
      exact ih _ h
    · rw [if_neg hv]
      by_cases hx : (h.inner.execute E (Statement.droppingUnionedView v)).1 = true
      · simp only [hx, if_true]
        obtain ⟨i1, d, i2, i3⟩ := ih m { h with inner :=
          (h.inner.execute E (Statement.droppingUnionedView v)).2 }
        refine ⟨i1, Event.execute (Statement.droppingUnionedView v)
          (E.execute (Statement.droppingUnionedView v) h.inner.engine).1 :: d, ?_, ?_⟩
        · rw [i2]
          simp [InnerHandle.execute, InnerHandle.record]
        · intro e he
          rcases List.mem_cons.mp he with h1 | h1
          · rw [h1]; rfl
          · exact i3 e h1
      · simp only [hx]
        refine ⟨rfl, [Event.execute (Statement.droppingUnionedView v)
          (E.execute (Statement.droppingUnionedView v) h.inner.engine).1], ?_, ?_⟩
        · simp [InnerHandle.execute, InnerHandle.record]
        · intro e he
          rw [List.mem_singleton.mp he]; rfl

theorem createViews_true {σ : Type} (E : Engine σ) (needed : List (String × MigrationInfo)) :
    ∀ h : MigratingHandle σ, (MigratingHandle.createViews E needed true h).1 ≠ some false := by
  induction needed with
  | nil => intro h; simp [MigratingHandle.createViews]
  | cons iter rest ih =>
    intro h
    unfold MigratingHandle.createViews
    by_cases hx : (h.inner.execute E (Statement.creatingUnionedView iter.2)).1 = true
    · simp only [hx, if_true]
      exact ih _
    · simp only [hx]
      simp

theorem createViews_frame {σ : Type} (E : Engine σ) (needed : List (String × MigrationInfo)) :
    ∀ (b : Bool) (h : MigratingHandle σ),
      (MigratingHandle.createViews E needed b h).2.m_createdNewViewInTransaction
        = h.m_createdNewViewInTransaction
      ∧ ∃ d : List Event,
          (MigratingHandle.createViews E needed b h).2.inner.trace = h.inner.trace ++ d
          ∧ ((∃ e ∈ d, e.isCreateView = true) →
              (MigratingHandle.createViews E needed b h).1 ≠ some false) := by
  induction needed with
  | nil =>
    intro b h
    exact ⟨rfl, [], by simp [MigratingHandle.createViews], by simp⟩
  | cons iter rest ih =>
    intro b h
    unfold MigratingHandle.createViews
    by_cases hx : (h.inner.execute E (Statement.creatingUnionedView iter.2)).1 = true
    · simp only [hx, if_true]
      obtain ⟨i1, d, i2, _⟩ := ih true { h with inner :=
        (h.inner.execute E (Statement.creatingUnionedView iter.2)).2 }
      refine ⟨i1, Event.execute (Statement.creatingUnionedView iter.2)
        (E.execute (Statement.creatingUnionedView iter.2) h.inner.engine).1 :: d, ?_, ?_⟩
      · rw [i2]
        simp [InnerHandle.execute, InnerHandle.record]
      · intro _
        exact createViews_true E rest _
    · simp only [hx]
      refine ⟨rfl, [Event.execute (Statement.creatingUnionedView iter.2)
        (E.execute (Statement.creatingUnionedView iter.2) h.inner.engine).1], ?_, ?_⟩
      · simp [InnerHandle.execute, InnerHandle.record]
      · intro _
        simp

theorem rebindViews_sets_flag {σ : Type} (E : Engine σ)
    (migratings : List (String × MigrationInfo)) (h : MigratingHandle σ)
    (hok : (h.rebindViews E migratings).1 = true) :
    ∃ d : List Event, (h.rebindViews E migratings).2.inner.trace = h.inner.trace ++ d
      ∧ ((∃ e ∈ d, e.isCreateView = true) →
          E.isInTransaction (h.rebindViews E migratings).2.inner.engine = true →
          (h.rebindViews E migratings).2.m_createdNewViewInTransaction = true) := by
  have hte : (h.inner.tableExists E Schema.temp masterTable).2.trace
      = h.inner.trace ++ [Event.tableExists Schema.temp masterTable
          (h.inner.tableExists E Schema.temp masterTable).1] := rfl
  have finish : ∀ (pre : List Event) (needed : List (String × MigrationInfo))
      (g : MigratingHandle σ), g.inner.trace = h.inner.trace ++ pre →
      (∀ e ∈ pre, e.isCreateView = false) →
      ∀ hasNewView, (MigratingHandle.createViews E needed false g).1 = some hasNewView →
      ∃ d : List Event,
        (if (hasNewView && E.isInTransaction
              (MigratingHandle.createViews E needed false g).2.inner.engine) = true then
            (true, { (MigratingHandle.createViews E needed false g).2 with
              m_createdNewViewInTransaction := true })
          else (true, (MigratingHandle.createViews E needed false g).2)).2.inner.trace
          = h.inner.trace ++ d
        ∧ ((∃ e ∈ d, e.isCreateView = true) →
            E.isInTransaction
              (if (hasNewView && E.isInTransaction
                  (MigratingHandle.createViews E needed false g).2.inner.engine) = true then
                (true, { (MigratingHandle.createViews E needed false g).2 with
                  m_createdNewViewInTransaction := true })
              else (true, (MigratingHandle.createViews E needed false g).2)).2.inner.engine
              = true →
            (if (hasNewView && E.isInTransaction
                (MigratingHandle.createViews E needed false g).2.inner.engine) = true then
              (true, { (MigratingHandle.createViews E needed false g).2 with
                m_createdNewViewInTransaction := true })
            else (true, (MigratingHandle.createViews E needed false g).2)
              ).2.m_createdNewViewInTransaction = true) := by
    intro pre needed g hpre hnc hasNewView hc
    obtain ⟨_, dc, hdc, himp⟩ := createViews_frame E needed false g
    refine ⟨pre ++ dc, ?_, ?_⟩
    · split_ifs <;> simp [hdc, hpre]
    · rintro ⟨e, he, hcreate⟩ hin
      have hnew : hasNewView = true := by
        rcases List.mem_append.mp he with h1 | h1
        · rw [hnc e h1] at hcreate
          simp at hcreate
        · have := himp ⟨e, h1, hcreate⟩
          rw [hc] at this
          cases hasNewView with
          | true => rfl
          | false => exact absurd rfl this
      subst hnew
      by_cases htx : E.isInTransaction
          (MigratingHandle.createViews E needed false g).2.inner.engine = true
      · simp [htx]
      · simp [htx] at hin
  unfold MigratingHandle.rebindViews at hok ⊢
  cases he : (h.inner.tableExists E Schema.temp masterTable).1 with
  | none => simp [he] at hok
  | some tempExists =>
    rw [he] at hte
    simp only [he] at hok ⊢
    cases tempExists with
    | false =>
      simp only [Bool.false_eq_true, if_false] at hok ⊢
      cases hc : (MigratingHandle.createViews E
          (MigratingHandle.views2MigratingInfos migratings) false
          { h with inner := (h.inner.tableExists E Schema.temp masterTable).2 }).1 with
      | none => simp [hc] at hok
      | some hasNewView =>
        simp only [hc]
        exact finish [Event.tableExists Schema.temp masterTable (some false)] _ _ hte
          (by intro e he2; rw [List.mem_singleton.mp he2]; rfl) hasNewView hc
    | true =>
      simp only [if_true] at hok ⊢
      have hgt : ((h.inner.tableExists E Schema.temp masterTable).2.getValues E
          Statement.selectingUnionedView 0).2.trace
          = h.inner.trace ++ [Event.tableExists Schema.temp masterTable (some true),
              Event.getValues Statement.selectingUnionedView
                ((h.inner.tableExists E Schema.temp masterTable).2.getValues E
                  Statement.selectingUnionedView 0).1] := by
        have h1 : ((h.inner.tableExists E Schema.temp masterTable).2.getValues E
            Statement.selectingUnionedView 0).2.trace
            = (h.inner.tableExists E Schema.temp masterTable).2.trace
              ++ [Event.getValues Statement.selectingUnionedView
                ((h.inner.tableExists E Schema.temp masterTable).2.getValues E
                  Statement.selectingUnionedView 0).1] := rfl
        rw [h1, hte]
        simp
      cases hg : ((h.inner.tableExists E Schema.temp masterTable).2.getValues E
          Statement.selectingUnionedView 0).1 with
      | none => simp [hg] at hok
      | some existing =>
        rw [hg] at hgt
        simp only [hg] at hok ⊢
        obtain ⟨_, dr, hdr, hnr⟩ := reconcileExisting_frame E existing
          (MigratingHandle.views2MigratingInfos migratings)
          { h with inner := ((h.inner.tableExists E Schema.temp masterTable).2.getValues E
              Statement.selectingUnionedView 0).2 }
        cases hr : (MigratingHandle.reconcileExisting E existing
            (MigratingHandle.views2MigratingInfos migratings)
            { h with inner := ((h.inner.tableExists E Schema.temp masterTable).2.getValues E
                Statement.selectingUnionedView 0).2 }).1 with
        | none => simp [hr] at hok
        | some needed =>
          simp only [hr] at hok ⊢
          cases hc : (MigratingHandle.createViews E needed false
              (MigratingHandle.reconcileExisting E existing
                (MigratingHandle.views2MigratingInfos migratings)
                { h with inner :=
                    ((h.inner.tableExists E Schema.temp masterTable).2.getValues E
                      Statement.selectingUnionedView 0).2 }).2).1 with
          | none => simp [hc] at hok
          | some hasNewView =>
            simp only [hc]
            refine finish ([Event.tableExists Schema.temp masterTable (some true),
              Event.getValues Statement.selectingUnionedView (some existing)] ++ dr) _ _ ?_ ?_
              hasNewView hc
            · rw [hdr]
              simp only [hgt, List.append_assoc]
            · intro e he2
              rcases List.mem_append.mp he2 with h1 | h1
              · simp only [List.mem_cons, List.mem_singleton, List.not_mem_nil, or_false] at h1
                rcases h1 with h1 | h1 <;> rw [h1] <;> rfl
              · exact hnr e h1

/-- C7, amended: after `rollbackTransaction` the `createdNewViewInTransaction`
flag is false, and `setNeedRebind` is called exactly once when the flag was set
at entry and not at all otherwise: the events added are the base rollback,
followed by one `setNeedRebind` exactly in the first case.  The flag is set
whenever a `rebindViews` that returns true has executed a create statement and
the handle is in a transaction, so the rollback that follows such a
`rebindViews` calls `setNeedRebind` once. -/
theorem rollback_requests_rebind {σ : Type} (E : Engine σ) (B : Binder σ)
    (h : MigratingHandle σ) (migratings : List (String × MigrationInfo)) :
    (h.rollbackTransaction E B).m_createdNewViewInTransaction = false
    ∧ (h.rollbackTransaction E B).inner.trace
        = h.inner.trace ++ Event.rollbackTransaction
            :: (if h.m_createdNewViewInTransaction then [Event.setNeedRebind] else [])
    ∧ ((h.rollbackTransaction E B).inner.trace.drop h.inner.trace.length).count
          Event.setNeedRebind
        = (if h.m_createdNewViewInTransaction then 1 else 0)
    ∧ (1 ≤ ((h.rollbackTransaction E B).inner.trace.drop h.inner.trace.length).count
          Event.setNeedRebind ↔ h.m_createdNewViewInTransaction = true)
    ∧ (h.rollbackTransaction E B).inner.engine
        = (if h.m_createdNewViewInTransaction then
            B.setNeedRebind (E.rollbackTransaction h.inner.engine)
          else E.rollbackTransaction h.inner.engine)
    ∧ ((h.rebindViews E migratings).1 = true →
        (∃ e ∈ (h.rebindViews E migratings).2.inner.trace.drop h.inner.trace.length,
          e.isCreateView = true) →
        E.isInTransaction (h.rebindViews E migratings).2.inner.engine = true →
        (((h.rebindViews E migratings).2.rollbackTransaction E B).inner.trace.drop
          (h.rebindViews E migratings).2.inner.trace.length).count Event.setNeedRebind = 1) := by
  have hroll : ∀ g : MigratingHandle σ,
      (g.rollbackTransaction E B).m_createdNewViewInTransaction = false
      ∧ (g.rollbackTransaction E B).inner.trace
          = g.inner.trace ++ Event.rollbackTransaction
              :: (if g.m_createdNewViewInTransaction then [Event.setNeedRebind] else [])
      ∧ ((g.rollbackTransaction E B).inner.trace.drop g.inner.trace.length).count
            Event.setNeedRebind
          = (if g.m_createdNewViewInTransaction then 1 else 0)
      ∧ (1 ≤ ((g.rollbackTransaction E B).inner.trace.drop g.inner.trace.length).count
            Event.setNeedRebind ↔ g.m_createdNewViewInTransaction = true)
      ∧ (g.rollbackTransaction E B).inner.engine
          = (if g.m_createdNewViewInTransaction then
              B.setNeedRebind (E.rollbackTransaction g.inner.engine)
            else E.rollbackTransaction g.inner.engine) := by
    intro g
    cases hflag : g.m_createdNewViewInTransaction <;>
      simp [MigratingHandle.rollbackTransaction, InnerHandle.rollbackTransaction,
        InnerHandle.record, hflag]
  obtain ⟨c1, c2, c3, c4, c5⟩ := hroll h
  refine ⟨c1, c2, c3, c4, c5, ?_⟩
  intro hok hcreate hin
  obtain ⟨d, hd, hflag⟩ := rebindViews_sets_flag E migratings h hok
  rw [hd, List.drop_left] at hcreate
  have hset := hflag hcreate hin
  rw [(hroll (h.rebindViews E migratings).2).2.2.1, hset]
  rfl

theorem rollback_requests_rebind_witness :
    ((exampleViewHandle none true []).rebindViews viewEngine [("message", exampleInfo)]).1 = true
    ∧ ((((exampleViewHandle none true []).rebindViews viewEngine
          [("message", exampleInfo)]).2.rollbackTransaction viewEngine
            exampleViewBinder).inner.trace.drop
        ((exampleViewHandle none true []).rebindViews viewEngine
          [("message", exampleInfo)]).2.inner.trace.length).count Event.setNeedRebind = 1 :=
  ⟨by rfl,
    (rollback_requests_rebind viewEngine exampleViewBinder (exampleViewHandle none true [])
      [("message", exampleInfo)]).2.2.2.2.2 (by rfl)
      ⟨Event.execute (Statement.creatingUnionedView exampleInfo) true,
        List.Mem.tail _ (List.Mem.head _), rfl⟩ (by rfl)⟩

/-- C7 as stated fails when `rebindViews` fails part-way.  Inside a
transaction that began with no unioned view, `rebindViews` for the tables "a"
and "b" creates the view of "a" and then fails on the create statement of "b":
it returns false before the flag is set.  The rollback that follows discards
the view created inside the transaction, and `setNeedRebind` is not called. -/
theorem rollback_after_failed_rebindViews_requests_nothing :
    ((exampleViewHandle (some []) true [false, false, false, true]).rebindViews viewEngine
        exampleMigratings).1 = false
    ∧ Event.execute (Statement.creatingUnionedView exampleInfoA) true
        ∈ ((exampleViewHandle (some []) true [false, false, false, true]).rebindViews
            viewEngine exampleMigratings).2.inner.trace
    ∧ ((exampleViewHandle (some []) true [false, false, false, true]).rebindViews viewEngine
        exampleMigratings).2.inner.engine.views = some ["wcdb_union_a"]
    ∧ viewEngine.isInTransaction
        ((exampleViewHandle (some []) true [false, false, false, true]).rebindViews viewEngine
          exampleMigratings).2.inner.engine = true
    ∧ ((exampleViewHandle (some []) true [false, false, false, true]).rebindViews viewEngine
        exampleMigratings).2.m_createdNewViewInTransaction = false
    ∧ ((((exampleViewHandle (some []) true [false, false, false, true]).rebindViews viewEngine
          exampleMigratings).2.rollbackTransaction viewEngine
            exampleViewBinder).inner.engine.views = some [])
    ∧ ((((exampleViewHandle (some []) true [false, false, false, true]).rebindViews viewEngine
          exampleMigratings).2.rollbackTransaction viewEngine
            exampleViewBinder).inner.trace.count Event.setNeedRebind = 0)
    ∧ (((exampleViewHandle (some []) true [false, false, false, true]).rebindViews viewEngine
          exampleMigratings).2.rollbackTransaction viewEngine
            exampleViewBinder).m_createdNewViewInTransaction = false := by
  refine ⟨by rfl, by decide, by rfl, by rfl, by rfl, by rfl, by decide, by rfl⟩

/-! ## Column sets of a table under migration -/

theorem mem_eraseMissing (sourceColumns ret : List String) (c : String) :
    c ∈ MigratingHandle.eraseMissing sourceColumns ret ↔ c ∈ ret ∧ c ∈ sourceColumns := by
  induction ret with
  | nil => simp [MigratingHandle.eraseMissing]
  | cons column rest ih =>
    unfold MigratingHandle.eraseMissing
    by_cases hc : column ∈ sourceColumns
    · rw [if_pos hc, List.mem_cons, ih, List.mem_cons]
      constructor
      · rintro (rfl | ⟨h1, h2⟩)
        · exact ⟨Or.inl rfl, hc⟩
        · exact ⟨Or.inr h1, h2⟩
      · rintro ⟨rfl | h1, h2⟩
        · exact Or.inl rfl
        · exact Or.inr ⟨h1, h2⟩
    · rw [if_neg hc, ih, List.mem_cons]
      constructor
      · rintro ⟨h1, h2⟩
        exact ⟨Or.inr h1, h2⟩
      · rintro ⟨rfl | h1, h2⟩
        · exact absurd h2 hc
        · exact ⟨h1, h2⟩

theorem eraseMissing_sublist (sourceColumns ret : List String) :
    (MigratingHandle.eraseMissing sourceColumns ret).Sublist ret := by
  induction ret with
  | nil => simp [MigratingHandle.eraseMissing]
  | cons column rest ih =>
    unfold MigratingHandle.eraseMissing
    by_cases hc : column ∈ sourceColumns
    · rw [if_pos hc]; exact ih.cons₂ _
    · rw [if_neg hc]; exact ih.cons _

/-- C5: `MigratingHandle::getColumns`.  A failed base query gives absent; a
non-main schema or a table that is not under migration gives the base result
unchanged; a failed binding lookup or a failed source-column query gives
absent; and for a table under migration in the main schema the result is
exactly the intersection of the destination columns (base query) and the
source columns (base query on the source table of the info), in the order of
the destination columns. -/
theorem getColumns_intersection {σ : Type} (E : Engine σ) (B : Binder σ) (schema : Schema)
    (table : String) (h : MigratingHandle σ) :
    ((h.inner.getColumns E schema table).1 = none → (h.getColumns E B schema table).1 = none)
    ∧ (∀ ret, (h.inner.getColumns E schema table).1 = some ret → schema.isMain = false →
        (h.getColumns E B schema table).1 = some ret)
    ∧ (∀ ret, (h.inner.getColumns E schema table).1 = some ret → schema.isMain = true →
        ((MigratingHandle.getBindingInfo B table (h.afterBaseColumns E schema table)).1 = none →
          (h.getColumns E B schema table).1 = none)
        ∧ ((MigratingHandle.getBindingInfo B table (h.afterBaseColumns E schema table)).1
            = some none → (h.getColumns E B schema table).1 = some ret)
        ∧ (∀ info,
            (MigratingHandle.getBindingInfo B table (h.afterBaseColumns E schema table)).1
              = some (some info) →
            (((MigratingHandle.getBindingInfo B table
                (h.afterBaseColumns E schema table)).2.inner.getColumns E
                  info.schemaForSourceDatabase info.sourceTable).1 = none →
              (h.getColumns E B schema table).1 = none)
            ∧ (∀ sourceColumns,
                ((MigratingHandle.getBindingInfo B table
                  (h.afterBaseColumns E schema table)).2.inner.getColumns E
                    info.schemaForSourceDatabase info.sourceTable).1 = some sourceColumns →
                ∃ columns, (h.getColumns E B schema table).1 = some columns
                  ∧ columns.toFinset = ret.toFinset ∩ sourceColumns.toFinset
                  ∧ (∀ c, c ∈ columns ↔ c ∈ ret ∧ c ∈ sourceColumns)
                  ∧ columns.Sublist ret))) := by
  refine ⟨?_, ?_, ?_⟩
  · intro hbase
    simp [MigratingHandle.getColumns, hbase]
  · intro ret hbase hmain
    simp [MigratingHandle.getColumns, hbase, hmain]
  · intro ret hbase hmain
    refine ⟨?_, ?_, ?_⟩
    · intro hbind
      unfold MigratingHandle.afterBaseColumns at hbind
      simp [MigratingHandle.getColumns, hbase, hmain, hbind]
    · intro hbind
      unfold MigratingHandle.afterBaseColumns at hbind
      simp [MigratingHandle.getColumns, hbase, hmain, hbind]
    · intro info hbind
      unfold MigratingHandle.afterBaseColumns at hbind ⊢
      refine ⟨?_, ?_⟩
      · intro hsrc
        simp [MigratingHandle.getColumns, hbase, hmain, hbind, hsrc]
      · intro sourceColumns hsrc
        refine ⟨MigratingHandle.eraseMissing sourceColumns ret, ?_, ?_,
          mem_eraseMissing sourceColumns ret, eraseMissing_sublist sourceColumns ret⟩
        · simp [MigratingHandle.getColumns, hbase, hmain, hbind, hsrc]
        · ext c
          simp [mem_eraseMissing]

theorem getColumns_intersection_witness :
    ((MigratingHandle.create (exampleWorld (some [1]) (some []) [] [])).inner.getColumns
        exampleColumnEngine Schema.main "message").1 = some ["a", "b", "c"]
    ∧ ∃ columns,
        ((MigratingHandle.create (exampleWorld (some [1]) (some []) [] [])).getColumns
          exampleColumnEngine exampleBinder Schema.main "message").1 = some columns
        ∧ (∀ c, c ∈ columns ↔ c ∈ ["a", "b", "c"] ∧ c ∈ ["b", "c", "d"]) :=
  ⟨by rfl,
    (((getColumns_intersection exampleColumnEngine exampleBinder Schema.main "message"
        (MigratingHandle.create (exampleWorld (some [1]) (some []) [] []))).2.2
          ["a", "b", "c"] (by rfl) (by rfl)).2.2 exampleInfo (by rfl)).2
            ["b", "c", "d"] (by rfl)
      |>.elim (fun columns hc => ⟨columns, hc.1, hc.2.2.1⟩)⟩

/-! ## Rebinding the unioned views -/

theorem any_key_iff (m : List (String × MigrationInfo)) (view : String) :
    m.any (fun entry => entry.1 == view) = true ↔ ∃ e ∈ m, e.1 = view := by
  simp [List.any_eq_true]

theorem views2_fold (migratings acc : List (String × MigrationInfo))
    (hacc : ∀ e ∈ acc, e.1 = e.2.unionedView) :
    (∀ e ∈ migratings.foldl
        (fun m iter => MigratingHandle.emplace iter.2.unionedView iter.2 m) acc,
      e.1 = e.2.unionedView)
    ∧ (∀ v, (∃ e ∈ migratings.foldl
        (fun m iter => MigratingHandle.emplace iter.2.unionedView iter.2 m) acc, e.1 = v)
      ↔ ((∃ e ∈ acc, e.1 = v) ∨ ∃ entry ∈ migratings, entry.2.unionedView = v)) := by
  induction migratings generalizing acc with
  | nil => simpa using hacc
  | cons iter rest ih =>
    rw [List.foldl_cons]
    have hacc2 : ∀ e ∈ MigratingHandle.emplace iter.2.unionedView iter.2 acc,
        e.1 = e.2.unionedView := by
      intro e he
      unfold MigratingHandle.emplace at he
      split_ifs at he with hany
      · exact hacc e he
      · rcases List.mem_append.mp he with h1 | h1
        · exact hacc e h1
        · rw [List.mem_singleton.mp h1]
    have hkeys : ∀ v, (∃ e ∈ MigratingHandle.emplace iter.2.unionedView iter.2 acc, e.1 = v)
        ↔ ((∃ e ∈ acc, e.1 = v) ∨ iter.2.unionedView = v) := by
      intro v
      unfold MigratingHandle.emplace
      split_ifs with hany
      · have hex := (any_key_iff acc iter.2.unionedView).mp hany
        constructor
        · intro h1; exact Or.inl h1
        · rintro (h1 | h1)
          · exact h1
          · rw [← h1]; exact hex
      · constructor
        · rintro ⟨e, he, hev⟩
          rcases List.mem_append.mp he with h1 | h1
          · exact Or.inl ⟨e, h1, hev⟩
          · rw [List.mem_singleton.mp h1] at hev
            exact Or.inr hev
        · rintro (⟨e, he, hev⟩ | h1)
          · exact ⟨e, List.mem_append_left _ he, hev⟩
          · exact ⟨(iter.2.unionedView, iter.2), List.mem_append_right _ (List.mem_singleton.mpr rfl), h1⟩
    obtain ⟨ih1, ih2⟩ := ih _ hacc2
    refine ⟨ih1, ?_⟩
    intro v
    rw [ih2 v, hkeys v]
    constructor
    · rintro ((h1 | h1) | ⟨entry, he, hv⟩)
      · exact Or.inl h1
      · exact Or.inr ⟨iter, List.mem_cons_self _ _, h1⟩
      · exact Or.inr ⟨entry, List.mem_cons_of_mem _ he, hv⟩
    · rintro (h1 | ⟨entry, he, hv⟩)
      · exact Or.inl (Or.inl h1)
      · rcases List.mem_cons.mp he with h2 | h2
        · rw [h2] at hv; exact Or.inl (Or.inr hv)
        · exact Or.inr ⟨entry, h2, hv⟩

theorem views2_keys (migratings : List (String × MigrationInfo)) :
    (∀ e ∈ MigratingHandle.views2MigratingInfos migratings, e.1 = e.2.unionedView)
    ∧ (∀ v, (∃ e ∈ MigratingHandle.views2MigratingInfos migratings, e.1 = v)
      ↔ ∃ entry ∈ migratings, entry.2.unionedView = v) := by
  have h := views2_fold migratings [] (by simp)
  refine ⟨h.1, ?_⟩
  intro v
  have h2 := h.2 v
  simp only [List.not_mem_nil, false_and, exists_false, false_or] at h2
  exact h2

theorem fault_views (w : ViewWorld) : w.fault.2.views = w.views := by
  unfold ViewWorld.fault
  cases w.faults <;> rfl

theorem fault_names (w : ViewWorld) : w.fault.2.names = w.names := by
  unfold ViewWorld.names
  rw [fault_views]

theorem execute_drop_names (b : InnerHandle ViewWorld) (view : String)
    (hok : (b.execute viewEngine (Statement.droppingUnionedView view)).1 = true) :
    (b.execute viewEngine (Statement.droppingUnionedView view)).2.engine.names
      = b.engine.names.filter (fun v => v != view) := by
  unfold InnerHandle.execute viewEngine at hok ⊢
  simp only [InnerHandle.record] at hok ⊢
  split_ifs at hok ⊢ with hf
  simp only [ViewWorld.names, fault_views]
  cases b.engine.views <;> simp

theorem execute_create_names (b : InnerHandle ViewWorld) (info : MigrationInfo)
    (hok : (b.execute viewEngine (Statement.creatingUnionedView info)).1 = true) :
    (b.execute viewEngine (Statement.creatingUnionedView info)).2.engine.names
      = info.unionedView :: b.engine.names := by
  unfold InnerHandle.execute viewEngine at hok ⊢
  simp only [InnerHandle.record] at hok ⊢
  split_ifs at hok ⊢ with hf hmem
  simp [ViewWorld.names, fault_views]

theorem reconcileExisting_wanted {σ : Type} (E : Engine σ) (existing : List String)
    (m : List (String × MigrationInfo)) (h : MigratingHandle σ)
    (hnodup : existing.Nodup) (hall : ∀ v ∈ existing, ∃ e ∈ m, e.1 = v) :
    MigratingHandle.reconcileExisting E existing m h
      = (some (m.filter (fun e => decide (e.1 ∉ existing))), h) := by
  induction existing generalizing m with
  | nil => simp [MigratingHandle.reconcileExisting]
  | cons v rest ih =>
    have hv : m.any (fun entry => entry.1 == v) = true :=
      (any_key_iff m v).mpr (hall v (List.mem_cons_self _ _))
    have hnd := List.nodup_cons.mp hnodup
    unfold MigratingHandle.reconcileExisting
    rw [if_pos hv, ih _ hnd.2]
    · congr 2
      rw [List.filter_filter]
      apply List.filter_congr
      intro e _
      by_cases hev : e.1 = v <;> simp [hev]
    · intro u hu
      obtain ⟨e, he, heu⟩ := hall u (List.mem_cons_of_mem _ hu)
      refine ⟨e, List.mem_filter.mpr ⟨he, ?_⟩, heu⟩
      simp only [bne_iff_ne, ne_eq, heu]
      rintro rfl
      exact hnd.1 hu

theorem reconcileExisting_views (existing : List String)
    (m : List (String × MigrationInfo)) (h : MigratingHandle ViewWorld)
    (m1 : List (String × MigrationInfo)) (hnodup : existing.Nodup)
    (hok : (MigratingHandle.reconcileExisting viewEngine existing m h).1 = some m1) :
    (∀ e, e ∈ m1 ↔ e ∈ m ∧ e.1 ∉ existing)
    ∧ (∀ u, u ∈ (MigratingHandle.reconcileExisting viewEngine existing m h).2.inner.engine.names
        ↔ u ∈ h.inner.engine.names ∧ (u ∉ existing ∨ ∃ e ∈ m, e.1 = u)) := by
  induction existing generalizing m h with
  | nil =>
    simp only [MigratingHandle.reconcileExisting, Option.some.injEq] at hok ⊢
    subst hok
    simp
  | cons v rest ih =>
    have hnd := List.nodup_cons.mp hnodup
    unfold MigratingHandle.reconcileExisting at hok ⊢
    by_cases hv : m.any (fun entry => entry.1 == v) = true
    · rw [if_pos hv] at hok ⊢
      obtain ⟨ih1, ih2⟩ := ih _ h hnd.2 hok
      have hvm := (any_key_iff m v).mp hv
      refine ⟨?_, ?_⟩
      · intro e
        rw [ih1 e, List.mem_filter]
        simp only [bne_iff_ne, ne_eq, List.mem_cons, not_or]
        tauto
      · intro u
        rw [ih2 u]
        by_cases huv : u = v
        · subst huv
          simp only [List.mem_cons, true_or, not_true_eq_false, false_or]
          constructor
          · intro h1; exact ⟨h1.1, hvm⟩
          · intro h1; exact ⟨h1.1, Or.inl hnd.1⟩
        · have hkey : (∃ e ∈ m.filter (fun entry => entry.1 != v), e.1 = u)
              ↔ ∃ e ∈ m, e.1 = u := by
            constructor
            · rintro ⟨e, he, heu⟩
              exact ⟨e, (List.mem_filter.mp he).1, heu⟩
            · rintro ⟨e, he, heu⟩
              refine ⟨e, List.mem_filter.mpr ⟨he, ?_⟩, heu⟩
              simp only [bne_iff_ne, ne_eq, heu]
              exact huv
          rw [hkey]
          simp only [List.mem_cons, not_or]
          tauto
    · rw [if_neg hv] at hok ⊢
      have hvm : ¬ ∃ e ∈ m, e.1 = v := fun hx => hv ((any_key_iff m v).mpr hx)
      by_cases hx : (h.inner.execute viewEngine (Statement.droppingUnionedView v)).1 = true
      · simp only [hx, if_true] at hok ⊢
        obtain ⟨ih1, ih2⟩ := ih m _ hnd.2 hok
        refine ⟨?_, ?_⟩
        · intro e
          rw [ih1 e]
          simp only [List.mem_cons, not_or]
          constructor
          · rintro ⟨h1, h2⟩
            refine ⟨h1, ?_, h2⟩
            intro hev
            exact hvm ⟨e, h1, hev⟩
          · rintro ⟨h1, _, h2⟩
            exact ⟨h1, h2⟩
        · intro u
          rw [ih2 u]
          simp only [execute_drop_names _ _ hx, List.mem_filter, bne_iff_ne, ne_eq,
            decide_not, Bool.not_eq_true', decide_eq_false_iff_not, List.mem_cons, not_or]
          by_cases huv : u = v
          · subst huv
            simp only [not_true_eq_false, and_false, false_and, false_or, false_iff, not_and]
            intro _ hx2
            exact hvm hx2
          · tauto
      · simp only [hx] at hok
        simp at hok

theorem createViews_views (needed : List (String × MigrationInfo)) (b : Bool)
    (h : MigratingHandle ViewWorld) (b1 : Bool)
    (hok : (MigratingHandle.createViews viewEngine needed b h).1 = some b1) :
    ∀ u, u ∈ (MigratingHandle.createViews viewEngine needed b h).2.inner.engine.names
      ↔ u ∈ h.inner.engine.names ∨ ∃ e ∈ needed, e.2.unionedView = u := by
  induction needed generalizing b h with
  | nil => simp [MigratingHandle.createViews]
  | cons iter rest ih =>
    unfold MigratingHandle.createViews at hok ⊢
    by_cases hx : (h.inner.execute viewEngine (Statement.creatingUnionedView iter.2)).1 = true
    · simp only [hx, if_true] at hok ⊢
      intro u
      rw [ih _ _ hok u]
      simp only [execute_create_names _ _ hx, List.mem_cons, exists_eq_or_imp]
      constructor
      · rintro ((h1 | h1) | h1)
        · exact Or.inr (Or.inl h1.symm)
        · exact Or.inl h1
        · exact Or.inr (Or.inr h1)
      · rintro (h1 | h1 | h1)
        · exact Or.inl (Or.inr h1)
        · exact Or.inl (Or.inl h1.symm)
        · exact Or.inr h1
    · simp only [hx] at hok
      simp at hok

theorem tableExists_view (b : InnerHandle ViewWorld) (schema : Schema) (table : String) :
    (b.tableExists viewEngine schema table).2.engine.views = b.engine.views
    ∧ (∀ x, (b.tableExists viewEngine schema table).1 = some x → x = b.engine.views.isSome) := by
  unfold InnerHandle.tableExists viewEngine
  simp only [InnerHandle.record]
  split_ifs with hf
  · simp [fault_views]
  · simp [fault_views]

theorem getValues_view (b : InnerHandle ViewWorld) (statement : Statement) (index : Nat) :
    (b.getValues viewEngine statement index).2.engine.views = b.engine.views
    ∧ (∀ l, (b.getValues viewEngine statement index).1 = some l → l = b.engine.names.dedup) := by
  unfold InnerHandle.getValues viewEngine
  simp only [InnerHandle.record]
  split_ifs with hf
  · simp [fault_views]
  · simp [fault_views, fault_names]

theorem rebindViews_views (migratings : List (String × MigrationInfo))
    (h : MigratingHandle ViewWorld) (hok : (h.rebindViews viewEngine migratings).1 = true) :
    ∀ v, v ∈ (h.rebindViews viewEngine migratings).2.inner.engine.names
      ↔ ∃ entry ∈ migratings, entry.2.unionedView = v := by
  obtain ⟨hkv, hkeys⟩ := views2_keys migratings
  obtain ⟨hte1, hte2⟩ := tableExists_view h.inner Schema.temp masterTable
  unfold MigratingHandle.rebindViews at hok ⊢
  cases he : (h.inner.tableExists viewEngine Schema.temp masterTable).1 with
  | none => simp [he] at hok
  | some tempExists =>
    have hte3 := hte2 _ he
    simp only [he] at hok ⊢
    cases tempExists with
    | false =>
      simp only [Bool.false_eq_true, if_false] at hok ⊢
      cases hc : (MigratingHandle.createViews viewEngine
          (MigratingHandle.views2MigratingInfos migratings) false
          { h with inner := (h.inner.tableExists viewEngine Schema.temp masterTable).2 }).1 with
      | none => simp [hc] at hok
      | some b1 =>
        have hcv := createViews_views _ _ _ b1 hc
        have hnames : (h.inner.tableExists viewEngine Schema.temp masterTable).2.engine.names
            = [] := by
          unfold ViewWorld.names
          rw [hte1]
          cases hv : h.inner.engine.views with
          | none => rfl
          | some l => rw [hv] at hte3; simp at hte3
        simp only [hc] at hok ⊢
        intro v
        have hcvv := hcv v
        simp only [hnames, List.not_mem_nil, false_or] at hcvv
        split_ifs
        · simp only [hcvv]
          rw [← hkeys v]
          constructor
          · rintro ⟨e, he1, he2⟩; exact ⟨e, he1, by rw [hkv e he1]; exact he2⟩
          · rintro ⟨e, he1, he2⟩; exact ⟨e, he1, by rw [← hkv e he1]; exact he2⟩
        · simp only [hcvv]
          rw [← hkeys v]
          constructor
          · rintro ⟨e, he1, he2⟩; exact ⟨e, he1, by rw [hkv e he1]; exact he2⟩
          · rintro ⟨e, he1, he2⟩; exact ⟨e, he1, by rw [← hkv e he1]; exact he2⟩
    | true =>
      simp only [if_true] at hok ⊢
      obtain ⟨hgv1, hgv2⟩ := getValues_view
        (h.inner.tableExists viewEngine Schema.temp masterTable).2
        Statement.selectingUnionedView 0
      cases hg : ((h.inner.tableExists viewEngine Schema.temp masterTable).2.getValues
          viewEngine Statement.selectingUnionedView 0).1 with
      | none => simp [hg] at hok
      | some existing =>
        have hex := hgv2 _ hg
        simp only [hg] at hok ⊢
        cases hr : (MigratingHandle.reconcileExisting viewEngine existing
            (MigratingHandle.views2MigratingInfos migratings)
            { h with inner := ((h.inner.tableExists viewEngine Schema.temp masterTable).2.getValues
                viewEngine Statement.selectingUnionedView 0).2 }).1 with
        | none => simp [hr] at hok
        | some needed =>
          have hnd : existing.Nodup := by rw [hex]; exact List.nodup_dedup _
          obtain ⟨hr1, hr2⟩ := reconcileExisting_views existing _ _ needed hnd hr
          simp only [hr] at hok ⊢
          cases hc : (MigratingHandle.createViews viewEngine needed false
              (MigratingHandle.reconcileExisting viewEngine existing
                (MigratingHandle.views2MigratingInfos migratings)
                { h with inner :=
                    ((h.inner.tableExists viewEngine Schema.temp masterTable).2.getValues
                      viewEngine Statement.selectingUnionedView 0).2 }).2).1 with
          | none => simp [hc] at hok
          | some b1 =>
            have hcv := createViews_views _ _ _ b1 hc
            simp only [hc] at hok ⊢
            have hnames : ((h.inner.tableExists viewEngine Schema.temp masterTable).2.getValues
                viewEngine Statement.selectingUnionedView 0).2.engine.names
                = (h.inner.tableExists viewEngine Schema.temp masterTable).2.engine.names := by
              unfold ViewWorld.names
              rw [hgv1]
            have hmain : ∀ v, v ∈ (MigratingHandle.createViews viewEngine needed false
                (MigratingHandle.reconcileExisting viewEngine existing
                  (MigratingHandle.views2MigratingInfos migratings)
                  { h with inner :=
                      ((h.inner.tableExists viewEngine Schema.temp masterTable).2.getValues
                        viewEngine Statement.selectingUnionedView 0).2 }).2).2.inner.engine.names
                ↔ ∃ entry ∈ migratings, entry.2.unionedView = v := by
              intro v
              rw [hcv v, hr2 v, ← hkeys v]
              simp only [hnames, hex, List.mem_dedup]
              constructor
              · rintro (⟨h1, h2 | h2⟩ | ⟨e, he1, he2⟩)
                · exact absurd h1 h2
                · exact h2
                · exact ⟨e, ((hr1 e).mp he1).1, by rw [hkv e ((hr1 e).mp he1).1]; exact he2⟩
              · rintro ⟨e, he1, he2⟩
                by_cases hv : v ∈ (h.inner.tableExists viewEngine Schema.temp
                    masterTable).2.engine.names
                · exact Or.inl ⟨hv, Or.inr ⟨e, he1, he2⟩⟩
                · refine Or.inr ⟨e, (hr1 e).mpr ⟨he1, ?_⟩, by rw [← hkv e he1]; exact he2⟩
                  rw [hex, List.mem_dedup, he2]
                  exact hv
            intro v
            split_ifs
            · exact hmain v
            · exact hmain v

theorem rebindViews_settled (migratings : List (String × MigrationInfo))
    (g : MigratingHandle ViewWorld)
    (hset : ∀ v, v ∈ g.inner.engine.names ↔ ∃ entry ∈ migratings, entry.2.unionedView = v) :
    ∃ second : List Event,
      (g.rebindViews viewEngine migratings).2.inner.trace = g.inner.trace ++ second
      ∧ second.filter Event.isDropView = []
      ∧ second.filter Event.isCreateView = []
      ∧ (g.rebindViews viewEngine migratings).2.m_createdNewViewInTransaction
          = g.m_createdNewViewInTransaction
      ∧ (g.rebindViews viewEngine migratings).2.inner.engine.views = g.inner.engine.views
      ∧ ((g.rebindViews viewEngine migratings).1 = true ↔ ∀ e ∈ second, e.failed = false) := by
  obtain ⟨hkv, hkeys⟩ := views2_keys migratings
  obtain ⟨hte1, hte2⟩ := tableExists_view g.inner Schema.temp masterTable
  have hin : ∀ e ∈ MigratingHandle.views2MigratingInfos migratings,
      e.1 ∈ g.inner.engine.names := by
    intro e he
    exact (hset e.1).mpr ((hkeys e.1).mp ⟨e, he, rfl⟩)
  have htrace : (g.inner.tableExists viewEngine Schema.temp masterTable).2.trace
      = g.inner.trace ++ [Event.tableExists Schema.temp masterTable
          (g.inner.tableExists viewEngine Schema.temp masterTable).1] := rfl
  unfold MigratingHandle.rebindViews
  cases he : (g.inner.tableExists viewEngine Schema.temp masterTable).1 with
  | none =>
    refine ⟨[Event.tableExists Schema.temp masterTable none], ?_, rfl, rfl, ?_, ?_, ?_⟩
    · simp only [he]; rw [htrace, he]
    · simp only [he]
    · simp only [he]; exact hte1
    · simp [he, Event.failed]
  | some tempExists =>
    have hte3 := hte2 _ he
    cases tempExists with
    | false =>
      have hnames : g.inner.engine.names = [] := by
        unfold ViewWorld.names
        cases hv : g.inner.engine.views with
        | none => rfl
        | some l => rw [hv] at hte3; simp at hte3
      have hD : MigratingHandle.views2MigratingInfos migratings = [] := by
        apply List.eq_nil_iff_forall_not_mem.mpr
        intro e he2
        have := hin e he2
        rw [hnames] at this
        exact absurd this (List.not_mem_nil _)
      refine ⟨[Event.tableExists Schema.temp masterTable (some false)], ?_, rfl, rfl, ?_, ?_, ?_⟩
      · simp only [he, hD, MigratingHandle.createViews, Bool.false_eq_true, if_false,
          Bool.false_and]
        rw [htrace, he]
      · simp only [he, hD, MigratingHandle.createViews, Bool.false_eq_true, if_false,
          Bool.false_and]
      · simp only [he, hD, MigratingHandle.createViews, Bool.false_eq_true, if_false,
          Bool.false_and]
        exact hte1
      · simp [he, hD, MigratingHandle.createViews, Event.failed]
    | true =>
      obtain ⟨hgv1, hgv2⟩ := getValues_view
        (g.inner.tableExists viewEngine Schema.temp masterTable).2
        Statement.selectingUnionedView 0
      have htrace2 : ((g.inner.tableExists viewEngine Schema.temp masterTable).2.getValues
          viewEngine Statement.selectingUnionedView 0).2.trace
          = g.inner.trace ++ [Event.tableExists Schema.temp masterTable (some true),
              Event.getValues Statement.selectingUnionedView
                ((g.inner.tableExists viewEngine Schema.temp masterTable).2.getValues
                  viewEngine Statement.selectingUnionedView 0).1] := by
        have h1 : ((g.inner.tableExists viewEngine Schema.temp masterTable).2.getValues
            viewEngine Statement.selectingUnionedView 0).2.trace
            = (g.inner.tableExists viewEngine Schema.temp masterTable).2.trace
              ++ [Event.getValues Statement.selectingUnionedView
                ((g.inner.tableExists viewEngine Schema.temp masterTable).2.getValues
                  viewEngine Statement.selectingUnionedView 0).1] := rfl
        rw [h1, htrace, he]
        simp
      cases hg : ((g.inner.tableExists viewEngine Schema.temp masterTable).2.getValues
          viewEngine Statement.selectingUnionedView 0).1 with
      | none =>
        refine ⟨[Event.tableExists Schema.temp masterTable (some true),
          Event.getValues Statement.selectingUnionedView none], ?_, rfl, rfl, ?_, ?_, ?_⟩
        · simp only [he, hg, if_true]; rw [htrace2, hg]
        · simp only [he, hg, if_true]
        · simp only [he, hg, if_true]; rw [hgv1, hte1]
        · simp [he, hg, Event.failed]
      | some existing =>
        have hex := hgv2 _ hg
        have hnd : existing.Nodup := by rw [hex]; exact List.nodup_dedup _
        have hnames : (g.inner.tableExists viewEngine Schema.temp masterTable).2.engine.names
            = g.inner.engine.names := by
          unfold ViewWorld.names; rw [hte1]
        have hall : ∀ v ∈ existing,
            ∃ e ∈ MigratingHandle.views2MigratingInfos migratings, e.1 = v := by
          intro v hv
          rw [hex, List.mem_dedup, hnames] at hv
          exact (hkeys v).mpr ((hset v).mp hv)
        have hnone : (MigratingHandle.views2MigratingInfos migratings).filter
            (fun e => decide (e.1 ∉ existing)) = [] := by
          apply List.filter_eq_nil_iff.mpr
          intro e he2
          have h1 := hin e he2
          rw [← hnames, ← List.mem_dedup, ← hex] at h1
          simp [h1]
        refine ⟨[Event.tableExists Schema.temp masterTable (some true),
          Event.getValues Statement.selectingUnionedView (some existing)],
          ?_, rfl, rfl, ?_, ?_, ?_⟩
        · simp only [he, hg, if_true, reconcileExisting_wanted viewEngine existing _ _ hnd hall,
            hnone, MigratingHandle.createViews, Bool.false_and, Bool.false_eq_true, if_false]
          rw [htrace2, hg]
        · simp only [he, hg, if_true, reconcileExisting_wanted viewEngine existing _ _ hnd hall,
            hnone, MigratingHandle.createViews, Bool.false_and, Bool.false_eq_true, if_false]
        · simp only [he, hg, if_true, reconcileExisting_wanted viewEngine existing _ _ hnd hall,
            hnone, MigratingHandle.createViews, Bool.false_and, Bool.false_eq_true, if_false]
          rw [hgv1, hte1]
        · simp only [he, hg, if_true, reconcileExisting_wanted viewEngine existing _ _ hnd hall,
            hnone, MigratingHandle.createViews, Bool.false_and, Bool.false_eq_true, if_false]
          simp [Event.failed]

/-- C8, amended: on the view-level engine, if `rebindViews(M)` succeeds then
the existing unioned views are exactly the unioned views of the infos of `M`;
a second `rebindViews(M)` executes no drop and no create statement, leaves the
views and the `createdNewViewInTransaction` flag as they are, and returns true
exactly when none of its own engine calls (the existence check of the temp
master table and the listing of the views) fails. -/
theorem rebindViews_idempotent (migratings : List (String × MigrationInfo))
    (h : MigratingHandle ViewWorld) (hok : (h.rebindViews viewEngine migratings).1 = true) :
    (∀ v, v ∈ (h.rebindViews viewEngine migratings).2.inner.engine.names
      ↔ ∃ entry ∈ migratings, entry.2.unionedView = v)
    ∧ ∃ second : List Event,
      (((h.rebindViews viewEngine migratings).2.rebindViews viewEngine migratings).2.inner.trace
        = (h.rebindViews viewEngine migratings).2.inner.trace ++ second)
      ∧ second.filter Event.isDropView = []
      ∧ second.filter Event.isCreateView = []
      ∧ ((h.rebindViews viewEngine migratings).2.rebindViews viewEngine
            migratings).2.m_createdNewViewInTransaction
          = (h.rebindViews viewEngine migratings).2.m_createdNewViewInTransaction
      ∧ ((h.rebindViews viewEngine migratings).2.rebindViews viewEngine
            migratings).2.inner.engine.views
          = (h.rebindViews viewEngine migratings).2.inner.engine.views
      ∧ (((h.rebindViews viewEngine migratings).2.rebindViews viewEngine migratings).1 = true
          ↔ ∀ e ∈ second, e.failed = false) :=
  ⟨rebindViews_views migratings h hok,
    rebindViews_settled migratings _ (rebindViews_views migratings h hok)⟩

theorem rebindViews_idempotent_witness :
    ((exampleViewHandle (some ["wcdb_union_old"]) true []).rebindViews viewEngine
        [("message", exampleInfo)]).1 = true
    ∧ (∀ v, v ∈ ((exampleViewHandle (some ["wcdb_union_old"]) true []).rebindViews viewEngine
          [("message", exampleInfo)]).2.inner.engine.names
        ↔ ∃ entry ∈ [("message", exampleInfo)], entry.2.unionedView = v) :=
  ⟨by rfl,
    (rebindViews_idempotent [("message", exampleInfo)]
      (exampleViewHandle (some ["wcdb_union_old"]) true []) (by rfl)).1⟩

/-- C8 as stated fails: the first `rebindViews(M)` succeeds (it creates the one
wanted view), and the second call with the same `M` returns false because its
existence check of the temp master table fails. -/
theorem rebindViews_second_call_can_fail :
    ((exampleViewHandle none false [false, false, true]).rebindViews viewEngine
        [("message", exampleInfo)]).1 = true
    ∧ (((exampleViewHandle none false [false, false, true]).rebindViews viewEngine
        [("message", exampleInfo)]).2.rebindViews viewEngine
          [("message", exampleInfo)]).1 = false
    ∧ (((exampleViewHandle none false [false, false, true]).rebindViews viewEngine
        [("message", exampleInfo)]).2.rebindViews viewEngine
          [("message", exampleInfo)]).2.inner.trace
        = [Event.tableExists Schema.temp masterTable (some false),
            Event.execute (Statement.creatingUnionedView exampleInfo) true,
            Event.tableExists Schema.temp masterTable none] := by
  refine ⟨by rfl, by rfl, by rfl⟩

/-! ## migrateRows: what the returned value means -/

theorem lastChanges_append (a b : List Event) :
    lastChanges (a ++ b) =
      match lastChanges b with
      | some n => some n
      | none => lastChanges a := by
  induction a with
  | nil => cases h : lastChanges b <;> simp [lastChanges, h]
  | cons e rest ih =>
    cases h : lastChanges b with
    | none =>
      have ih2 : lastChanges (rest ++ b) = lastChanges rest := by rw [ih, h]
      rw [List.cons_append]
      simp only [lastChanges]
      rw [ih2]
    | some n =>
      have ih2 : lastChanges (rest ++ b) = some n := by rw [ih, h]
      rw [List.cons_append]
      simp only [lastChanges]
      rw [ih2]

theorem noFailure_append (a b : List Event) :
    noFailure (a ++ b) = (noFailure a && noFailure b) := by
  simp [noFailure, List.all_append]

theorem detach_outcome {σ : Type} (E : Engine σ) (h : MigrateHandle σ) :
    ∃ d : List Event, (h.detach E).2.inner.trace = h.inner.trace ++ d
      ∧ noFailure d = (h.detach E).1 ∧ lastChanges d = none := by
  unfold MigrateHandle.detach
  by_cases hm : h.m_attached.isMain = true
  · exact ⟨[], by simp [hm], by simp [hm, noFailure], rfl⟩
  · have hm2 : h.m_attached.isMain = false := by simpa using hm
    refine ⟨[Event.execute (Statement.detach h.m_attached)
        (E.execute (Statement.detach h.m_attached) h.inner.engine).1], ?_, ?_, rfl⟩
    · simp only [hm2, InnerHandle.execute, InnerHandle.record, Bool.not_false, if_true]
      split_ifs <;> rfl
    · simp only [hm2, InnerHandle.execute, InnerHandle.record, Bool.not_false, if_true]
      cases hx : (E.execute (Statement.detach h.m_attached) h.inner.engine).1 <;>
        simp [noFailure, Event.failed]

theorem attach_outcome {σ : Type} (E : Engine σ) (info : MigrationInfo)
    (h : MigrateHandle σ) :
    ∃ d : List Event, (h.attach E info).2.inner.trace = h.inner.trace ++ d
      ∧ noFailure d = (h.attach E info).1 ∧ lastChanges d = none := by
  unfold MigrateHandle.attach
  simp only [InnerHandle.prepare, InnerHandle.step, InnerHandle.finalize, InnerHandle.bindBLOB,
    InnerHandle.record]
  cases hp : (E.prepare Slot.handleStatement
      (Statement.attachingSchema info.schemaForSourceDatabase) h.inner.engine).1
  · exact ⟨[Event.prepare Slot.handleStatement
      (Statement.attachingSchema info.schemaForSourceDatabase) false],
      by simp, by simp [noFailure, Event.failed], rfl⟩
  · simp only [if_true]
    split_ifs with h1 h2 h3 <;>
      exact ⟨_, by simp only [List.append_assoc]; rfl,
        by simp_all [noFailure, Event.failed], by simp [lastChanges]⟩

theorem finalize_trace {σ : Type} (E : Engine σ) (g : MigrateHandle σ) :
    (MigrateHandle.finalizeMigrationStatement E g).inner.trace
      = g.inner.trace ++ [Event.finalize Slot.migrateStatement,
          Event.finalize Slot.removeMigratedStatement] := by
  simp [MigrateHandle.finalizeMigrationStatement, InnerHandle.finalize, InnerHandle.record]

theorem reAttach_outcome {σ : Type} (E : Engine σ) (info : MigrationInfo)
    (h : MigrateHandle σ) :
    ∃ d : List Event, (h.reAttach E info).2.inner.trace = h.inner.trace ++ d
      ∧ noFailure d = (h.reAttach E info).1 ∧ lastChanges d = none := by
  have hfin : noFailure [Event.finalize Slot.migrateStatement,
      Event.finalize Slot.removeMigratedStatement] = true := by
    simp [noFailure, Event.failed]
  have hfin2 : lastChanges [Event.finalize Slot.migrateStatement,
      Event.finalize Slot.removeMigratedStatement] = none := by
    simp [lastChanges]
  unfold MigrateHandle.reAttach
  cases hs : h.m_attached.isTargetingSameSchema info.schemaForSourceDatabase with
  | true =>
    refine ⟨[Event.finalize Slot.migrateStatement,
      Event.finalize Slot.removeMigratedStatement], ?_, ?_, hfin2⟩
    · simp only [Bool.not_true, Bool.false_eq_true, if_false]
      rw [finalize_trace]
    · simp [hfin]
  | false =>
    obtain ⟨d1, ht1, hn1, hl1⟩ := detach_outcome E h
    simp only [Bool.not_false, if_true]
    cases hd : (h.detach E).1 with
    | false =>
      refine ⟨d1 ++ [Event.finalize Slot.migrateStatement,
        Event.finalize Slot.removeMigratedStatement], ?_, ?_, ?_⟩
      · simp only [Bool.false_eq_true, if_false]
        rw [finalize_trace]
        simp only [ht1, List.append_assoc]
      · rw [noFailure_append, hn1, hd]; simp
      · rw [lastChanges_append, hfin2, hl1]
    | true =>
      obtain ⟨d2, ht2, hn2, hl2⟩ := attach_outcome E info (h.detach E).2
      refine ⟨d1 ++ d2 ++ [Event.finalize Slot.migrateStatement,
        Event.finalize Slot.removeMigratedStatement], ?_, ?_, ?_⟩
      · simp only [if_true]
        rw [finalize_trace]
        simp only [ht2, ht1, List.append_assoc]
      · rw [noFailure_append, noFailure_append, hn1, hn2, hd, hfin]; simp
      · rw [lastChanges_append, hfin2, lastChanges_append, hl2, hl1]

theorem switchInfo_outcome {σ : Type} (E : Engine σ) (info : MigrationInfo)
    (h : MigrateHandle σ) :
    ∃ d : List Event, (h.switchInfo E info).2.inner.trace = h.inner.trace ++ d
      ∧ noFailure d = (h.switchInfo E info).1 ∧ lastChanges d = none := by
  unfold MigrateHandle.switchInfo
  by_cases hi : h.m_migratingInfo ≠ some info
  · obtain ⟨d, ht, hn, hl⟩ := reAttach_outcome E info h
    refine ⟨d, ?_, ?_, hl⟩
    · rw [if_pos hi]
      cases hr : (h.reAttach E info).1 <;> simp [hr, ht]
    · rw [if_pos hi, hn]
      cases hr : (h.reAttach E info).1 <;> simp [hr]
  · exact ⟨[], by rw [if_neg hi]; simp, by rw [if_neg hi]; simp [noFailure], rfl⟩

theorem prepareMigrateStatement_outcome {σ : Type} (E : Engine σ) (info : MigrationInfo)
    (h : MigrateHandle σ) :
    ∃ d : List Event, (h.prepareMigrateStatement E info).2.inner.trace = h.inner.trace ++ d
      ∧ noFailure d = (h.prepareMigrateStatement E info).1 ∧ lastChanges d = none := by
  unfold MigrateHandle.prepareMigrateStatement
  cases hp : h.m_migrateStatement with
  | true => exact ⟨[], by simp, by simp [noFailure], rfl⟩
  | false =>
    refine ⟨[Event.prepare Slot.migrateStatement
      (Statement.migratingOneRow (h.m_migratingInfo.getD info))
      (E.prepare Slot.migrateStatement
        (Statement.migratingOneRow (h.m_migratingInfo.getD info)) h.inner.engine).1],
      by simp [InnerHandle.prepare, InnerHandle.record], ?_, by simp [lastChanges]⟩
    simp only [InnerHandle.prepare, InnerHandle.record, Bool.not_false, if_true]
    cases (E.prepare Slot.migrateStatement
        (Statement.migratingOneRow (h.m_migratingInfo.getD info)) h.inner.engine).1 <;>
      simp [noFailure, Event.failed]

theorem prepareRemoveStatement_outcome {σ : Type} (E : Engine σ) (info : MigrationInfo)
    (h : MigrateHandle σ) :
    ∃ d : List Event, (h.prepareRemoveStatement E info).2.inner.trace = h.inner.trace ++ d
      ∧ noFailure d = (h.prepareRemoveStatement E info).1 ∧ lastChanges d = none := by
  unfold MigrateHandle.prepareRemoveStatement
  cases hp : h.m_removeMigratedStatement with
  | true => exact ⟨[], by simp, by simp [noFailure], rfl⟩
  | false =>
    refine ⟨[Event.prepare Slot.removeMigratedStatement
      (Statement.deletingMigratedOneRow (h.m_migratingInfo.getD info))
      (E.prepare Slot.removeMigratedStatement
        (Statement.deletingMigratedOneRow (h.m_migratingInfo.getD info)) h.inner.engine).1],
      by simp [InnerHandle.prepare, InnerHandle.record], ?_, by simp [lastChanges]⟩
    simp only [InnerHandle.prepare, InnerHandle.record, Bool.not_false, if_true]
    cases (E.prepare Slot.removeMigratedStatement
        (Statement.deletingMigratedOneRow (h.m_migratingInfo.getD info)) h.inner.engine).1 <;>
      simp [noFailure, Event.failed]

theorem migrateRow_outcome {σ : Type} (E : Engine σ) (h : MigrateHandle σ) :
    ∃ d : List Event, (h.migrateRow E).2.inner.trace = h.inner.trace ++ d
      ∧ Explains (h.migrateRow E).1 d := by
  unfold MigrateHandle.migrateRow
  simp only [InnerHandle.reset, InnerHandle.step, InnerHandle.getChanges, InnerHandle.record]
  split_ifs with h1 h2 h3 <;>
    refine ⟨_, by simp only [List.append_assoc]; rfl, ?_⟩
  · simp_all [Explains, noFailure, Event.failed, lastChanges]
  · simp_all [Explains, noFailure, Event.failed, lastChanges]
  · simp_all [Explains, noFailure, Event.failed, lastChanges]
  · simp_all [Explains, noFailure, Event.failed, lastChanges]

theorem Explains_append (m : Option Bool) (d1 d2 : List Event)
    (h1 : noFailure d1 = true) (h2 : Explains m d2) : Explains m (d1 ++ d2) := by
  cases m with
  | none =>
    simp only [Explains] at h2 ⊢
    rw [noFailure_append, h2]; simp
  | some b =>
    cases b with
    | true =>
      simp only [Explains] at h2 ⊢
      refine ⟨by rw [noFailure_append, h1, h2.1]; rfl, ?_⟩
      rw [lastChanges_append, h2.2]
    | false =>
      simp only [Explains] at h2 ⊢
      obtain ⟨hn, n, hn0, hl⟩ := h2
      refine ⟨by rw [noFailure_append, h1, hn]; rfl, n, hn0, ?_⟩
      rw [lastChanges_append, hl]

theorem Explains_commit (m : Option Bool) (d : List Event) (hm : m.isSome = true)
    (h : Explains m d) :
    Explains m (Event.beginTransaction true :: (d ++ [Event.commitTransaction true])) := by
  have hc : lastChanges [Event.commitTransaction true] = none := by simp [lastChanges]
  have hb : noFailure [Event.beginTransaction true] = true := by simp [noFailure, Event.failed]
  have hcn : noFailure [Event.commitTransaction true] = true := by
    simp [noFailure, Event.failed]
  have happ : Event.beginTransaction true :: (d ++ [Event.commitTransaction true])
      = [Event.beginTransaction true] ++ (d ++ [Event.commitTransaction true]) := rfl
  rw [happ]
  apply Explains_append _ _ _ hb
  cases m with
  | none => simp at hm
  | some b =>
    cases b with
    | true =>
      simp only [Explains] at h ⊢
      refine ⟨by rw [noFailure_append, h.1, hcn]; rfl, ?_⟩
      rw [lastChanges_append, hc]
      exact h.2
    | false =>
      simp only [Explains] at h ⊢
      obtain ⟨hn, n, hn0, hl⟩ := h
      refine ⟨by rw [noFailure_append, hn, hcn]; rfl, n, hn0, ?_⟩
      rw [lastChanges_append, hc]
      exact hl

theorem migrateLoop_outcome {σ : Type} (E : Engine σ) (budget : Double) (before : ℚ)
    (fuel : Nat) :
    ∀ (h : MigrateHandle σ) (m : Option Bool) (cost : ℚ) (h1 : MigrateHandle σ),
      MigrateHandle.migrateLoop E budget before fuel h = some (m, cost, h1) →
      ∃ d : List Event, h1.inner.trace = h.inner.trace ++ d ∧ Explains m d := by
  induction fuel with
  | zero =>
    intro h m cost h1 hrun
    simp [MigrateHandle.migrateLoop] at hrun
  | succ n ih =>
    intro h m cost h1 hrun
    obtain ⟨d1, ht1, he1⟩ := migrateRow_outcome E h
    unfold MigrateHandle.migrateLoop at hrun
    simp only at hrun
    split_ifs at hrun with hc
    · obtain ⟨d2, ht2, he2⟩ := ih _ m cost h1 hrun
      refine ⟨d1 ++ d2, ?_, ?_⟩
      · rw [ht2]
        simp only [InnerHandle.now, ht1, List.append_assoc]
      · apply Explains_append _ _ _ _ he2
        rw [hc.1] at he1
        exact he1.1
    · simp only [Option.some.injEq, Prod.mk.injEq] at hrun
      obtain ⟨hm, _, hh⟩ := hrun
      refine ⟨d1, ?_, ?_⟩
      · rw [← hh]
        simp only [InnerHandle.now, ht1]
      · rw [← hm]; exact he1

theorem now_trace {σ : Type} (E : Engine σ) (b : InnerHandle σ) :
    (b.now E).2.trace = b.trace := rfl

theorem migrateRowsTransaction_outcome {σ : Type} (E : Engine σ) (C : CoreConst)
    (fuel : Nat) (h : MigrateHandle σ) (r : Option Bool) (h1 : MigrateHandle σ)
    (hrun : MigrateHandle.migrateRowsTransaction E C fuel h = some (r, h1)) :
    ∃ d : List Event, h1.inner.trace = h.inner.trace ++ d ∧ Explains r d
      ∧ (∃ b, Event.beginTransaction b ∈ d) := by
  unfold MigrateHandle.migrateRowsTransaction MigrateHandle.runTransaction at hrun
  simp only at hrun
  cases hb : (InnerHandle.beginTransaction E (h.inner.now E).2).1 with
  | false =>
    simp only [hb, Bool.false_eq_true, if_false, Option.some.injEq, Prod.mk.injEq] at hrun
    obtain ⟨hr, hh⟩ := hrun
    refine ⟨[Event.beginTransaction false], ?_, ?_, ⟨false, by simp⟩⟩
    · rw [← hh]
      simp [InnerHandle.beginTransaction, InnerHandle.record, InnerHandle.now] at hb ⊢
      exact hb
    · rw [← hr]; simp [Explains, noFailure, Event.failed]
  | true =>
    simp only [hb, if_true] at hrun
    have hbt : (InnerHandle.beginTransaction E (h.inner.now E).2).2.trace
        = h.inner.trace ++ [Event.beginTransaction true] := by
      simp [InnerHandle.beginTransaction, InnerHandle.record, InnerHandle.now] at hb ⊢
      exact hb
    cases hl : MigrateHandle.migrateLoop E (calculateTimeIntervalWithinTransaction binary64 C h.m_samples)
        (h.inner.now E).1 fuel
        { h with inner := (InnerHandle.beginTransaction E (h.inner.now E).2).2 } with
    | none => simp [hl] at hrun
    | some res =>
      obtain ⟨m, cost, h2⟩ := res
      obtain ⟨d, ht, he⟩ := migrateLoop_outcome E _ _ fuel _ m cost h2 hl
      simp only [hl, Option.map_some'] at hrun
      cases m with
      | none =>
        simp only [Option.isSome_none, Bool.false_eq_true, if_false, Option.some.injEq,
          Prod.mk.injEq] at hrun
        obtain ⟨hr, hh⟩ := hrun
        refine ⟨Event.beginTransaction true :: (d ++ [Event.rollbackTransaction]), ?_, ?_,
          ⟨true, by simp⟩⟩
        · rw [← hh]
          simp [InnerHandle.rollbackTransaction, InnerHandle.record, ht, hbt]
        · rw [← hr]
          simp only [Explains] at he ⊢
          have : Event.beginTransaction true :: (d ++ [Event.rollbackTransaction])
              = [Event.beginTransaction true] ++ (d ++ [Event.rollbackTransaction]) := rfl
          rw [this, noFailure_append, noFailure_append, he]
          simp
      | some b =>
        simp only [Option.isSome_some, if_true] at hrun
        cases hc : (InnerHandle.commitOrRollbackTransaction E h2.inner).1 with
        | false =>
          simp only [hc, Option.some.injEq, Prod.mk.injEq] at hrun
          obtain ⟨hr, hh⟩ := hrun
          refine ⟨Event.beginTransaction true :: (d ++ [Event.commitTransaction false]), ?_, ?_,
            ⟨true, by simp⟩⟩
          · rw [← hh]
            simp [InnerHandle.commitOrRollbackTransaction, InnerHandle.record, ht, hbt] at hc ⊢
            exact hc
          · rw [← hr]
            simp only [Explains]
            have : Event.beginTransaction true :: (d ++ [Event.commitTransaction false])
                = [Event.beginTransaction true] ++ (d ++ [Event.commitTransaction false]) := rfl
            rw [this, noFailure_append, noFailure_append]
            simp [noFailure, Event.failed]
        | true =>
          simp only [hc, Option.some.injEq, Prod.mk.injEq] at hrun
          obtain ⟨hr, hh⟩ := hrun
          refine ⟨Event.beginTransaction true :: (d ++ [Event.commitTransaction true]), ?_, ?_,
            ⟨true, by simp⟩⟩
          · rw [← hh]
            have hc2 : (E.commitOrRollbackTransaction h2.inner.engine).1 = true := by
              simpa [InnerHandle.commitOrRollbackTransaction] using hc
            simp only [MigrateHandle.addSample, now_trace,
              InnerHandle.commitOrRollbackTransaction, InnerHandle.record, hc2]
            rw [ht]
            simp only [hbt, List.append_assoc, List.cons_append, List.nil_append]
          · rw [← hr]
            exact Explains_commit _ _ rfl he

theorem migrateRows_core {σ : Type} (E : Engine σ) (C : CoreConst) (fuel : Nat)
    (info : MigrationInfo) (h : MigrateHandle σ) (r : Option Bool) (h1 : MigrateHandle σ)
    (hrun : h.migrateRows E C fuel info = some (r, h1)) :
    ∃ d : List Event, h1.inner.trace = h.inner.trace ++ d
      ∧ ((r = some true ∧ d = [Event.tableExists Schema.main info.table (some false)])
        ∨ Explains r d) := by
  unfold MigrateHandle.migrateRows at hrun
  simp only at hrun
  have hte : (h.inner.tableExists E Schema.main info.table).2.trace
      = h.inner.trace ++ [Event.tableExists Schema.main info.table
          (h.inner.tableExists E Schema.main info.table).1] := rfl
  cases he : (h.inner.tableExists E Schema.main info.table).1 with
  | none =>
    rw [he] at hte
    simp only [he, Option.some.injEq, Prod.mk.injEq] at hrun
    obtain ⟨hr, hh⟩ := hrun
    refine ⟨_, by rw [← hh]; exact hte, Or.inr ?_⟩
    rw [← hr]; simp [Explains, noFailure, Event.failed]
  | some b =>
    rw [he] at hte
    cases b with
    | false =>
      simp only [he, Option.some.injEq, Prod.mk.injEq] at hrun
      obtain ⟨hr, hh⟩ := hrun
      exact ⟨_, by rw [← hh]; exact hte, Or.inl ⟨hr.symm, rfl⟩⟩
    | true =>
      simp only [he] at hrun
      have hn0 : noFailure [Event.tableExists Schema.main info.table (some true)] = true := by
        simp [noFailure, Event.failed]
      obtain ⟨dA, htA, hnA, _⟩ := switchInfo_outcome E info
        { h with inner := (h.inner.tableExists E Schema.main info.table).2 }
      cases hA : (MigrateHandle.switchInfo E info
          { h with inner := (h.inner.tableExists E Schema.main info.table).2 }).1 with
      | false =>
        simp only [hA, Bool.not_false, if_true, Option.some.injEq, Prod.mk.injEq] at hrun
        obtain ⟨hr, hh⟩ := hrun
        refine ⟨[Event.tableExists Schema.main info.table (some true)] ++ dA, ?_, Or.inr ?_⟩
        · rw [← hh, htA]
          simp only [hte, List.append_assoc]
        · rw [← hr]
          simp only [Explains]
          rw [noFailure_append, hnA, hA]; simp
      | true =>
        simp only [hA, Bool.not_true, Bool.false_eq_true, if_false] at hrun
        obtain ⟨dP, htP, hnP, _⟩ := prepareMigrateStatement_outcome E info
          (MigrateHandle.switchInfo E info
            { h with inner := (h.inner.tableExists E Schema.main info.table).2 }).2
        cases hP : (MigrateHandle.prepareMigrateStatement E info
            (MigrateHandle.switchInfo E info
              { h with inner := (h.inner.tableExists E Schema.main info.table).2 }).2).1 with
        | false =>
          simp only [hP, Bool.not_false, if_true, Option.some.injEq, Prod.mk.injEq] at hrun
          obtain ⟨hr, hh⟩ := hrun
          refine ⟨[Event.tableExists Schema.main info.table (some true)] ++ dA ++ dP, ?_,
            Or.inr ?_⟩
          · rw [← hh, htP, htA]
            simp only [hte, List.append_assoc]
          · rw [← hr]
            simp only [Explains]
            rw [noFailure_append, hnP, hP]; simp
        | true =>
          simp only [hP, Bool.not_true, Bool.false_eq_true, if_false] at hrun
          obtain ⟨dQ, htQ, hnQ, _⟩ := prepareRemoveStatement_outcome E info
            (MigrateHandle.prepareMigrateStatement E info
              (MigrateHandle.switchInfo E info
                { h with inner := (h.inner.tableExists E Schema.main info.table).2 }).2).2
          cases hQ : (MigrateHandle.prepareRemoveStatement E info
              (MigrateHandle.prepareMigrateStatement E info
                (MigrateHandle.switchInfo E info
                  { h with inner :=
                      (h.inner.tableExists E Schema.main info.table).2 }).2).2).1 with
          | false =>
            simp only [hQ, Bool.not_false, if_true, Option.some.injEq, Prod.mk.injEq] at hrun
            obtain ⟨hr, hh⟩ := hrun
            refine ⟨[Event.tableExists Schema.main info.table (some true)] ++ dA ++ dP ++ dQ,
              ?_, Or.inr ?_⟩
            · rw [← hh, htQ, htP, htA]
              simp only [hte, List.append_assoc]
            · rw [← hr]
              simp only [Explains]
              rw [noFailure_append, hnQ, hQ]; simp
          | true =>
            simp only [hQ, Bool.not_true, Bool.false_eq_true, if_false] at hrun
            obtain ⟨dT, htT, heT, _⟩ := migrateRowsTransaction_outcome E C fuel _ r h1 hrun
            refine ⟨([Event.tableExists Schema.main info.table (some true)] ++ dA ++ dP ++ dQ)
              ++ dT, ?_, Or.inr ?_⟩
            · rw [htT, htQ, htP, htA]
              simp only [hte, List.append_assoc]
            · apply Explains_append _ _ _ _ heT
              rw [noFailure_append, noFailure_append, noFailure_append, hn0, hnA, hnP, hnQ,
                hA, hP, hQ]
              rfl

theorem migrateRows_meaning_of_core {σ : Type} (E : Engine σ) (C : CoreConst) (fuel : Nat)
    (info : MigrationInfo) (h : MigrateHandle σ) (r : Option Bool) (h1 : MigrateHandle σ)
    (hrun : h.migrateRows E C fuel info = some (r, h1)) :
    ∃ d : List Event, h1.inner.trace = h.inner.trace ++ d
      ∧ (r = none ↔ noFailure d = false)
      ∧ (r = some true ↔ noFailure d = true
          ∧ (d = [Event.tableExists Schema.main info.table (some false)]
            ∨ lastChanges d = some 0))
      ∧ (r = some false ↔ noFailure d = true ∧ ∃ n : Int, n ≠ 0 ∧ lastChanges d = some n) := by
  obtain ⟨d, ht, hd⟩ := migrateRows_core E C fuel info h r h1 hrun
  refine ⟨d, ht, ?_⟩
  rcases hd with ⟨hr, hd⟩ | hd
  · subst hr
    subst hd
    simp [noFailure, Event.failed, lastChanges]
  · cases r with
    | none =>
      simp only [Explains] at hd
      simp [hd]
    | some b =>
      cases b with
      | true =>
        simp only [Explains] at hd
        simp [hd.1, hd.2]
      | false =>
        simp only [Explains] at hd
        obtain ⟨hn, n, hn0, hl⟩ := hd
        simp only [hn, hl, Option.some.injEq, true_and, reduceCtorEq, false_iff, true_iff,
          Bool.true_eq_false, iff_false, not_false_eq_true, not_or]
        refine ⟨⟨?_, hn0⟩, ⟨n, hn0, rfl⟩⟩
        intro hd2
        rw [hd2] at hl
        simp [lastChanges] at hl

/-! ## migrateRows on the row-level engine -/

theorem Moved_zero (t : Option (List Nat) × Option (List Nat)) : Moved 0 t t := by
  obtain ⟨a, b⟩ := t
  refine ⟨?_, ?_, Nat.zero_le _, fun _ => rfl⟩
  · cases a <;> simp
  · cases b <;> simp

theorem Moved_trans (a b : Nat) (t t1 t2 : Option (List Nat) × Option (List Nat))
    (h1 : Moved a t t1) (h2 : Moved b t1 t2) : Moved (a + b) t t2 := by
  obtain ⟨s, d⟩ := t
  obtain ⟨s1, d1⟩ := t1
  obtain ⟨s2, d2⟩ := t2
  obtain ⟨hs1, hd1, hk1, hz1⟩ := h1
  obtain ⟨hs2, hd2, hk2, hz2⟩ := h2
  simp only at hs1 hd1 hk1 hs2 hd2 hk2 hz1 hz2
  subst hs1 hd1
  subst hs2 hd2
  have hz : d = none → a + b = 0 := by
    intro hd
    have ha := hz1 hd
    have hb := hz2 (by rw [hd]; rfl)
    omega
  cases s with
  | none =>
    simp only [rowCount, Option.map_none'] at hk1 hk2
    have ha : a = 0 := by omega
    have hb : b = 0 := by omega
    subst ha hb
    refine ⟨by simp, ?_, by simp [rowCount], hz⟩
    cases d <;> simp
  | some rows =>
    simp only [rowCount, Option.map_some', List.length_drop] at hk1 hk2
    refine ⟨?_, ?_, ?_, hz⟩
    · simp only [Option.map_some', List.drop_drop, Option.some.injEq]
    · cases d with
      | none => simp
      | some dr =>
        simp only [Option.map_some', Option.getD_some, Option.some.injEq, List.append_assoc,
          List.append_cancel_left_eq]
        rw [List.take_add]
    · simp only [rowCount]; omega

theorem fault_rows (w : RowWorld) :
    w.fault.2.source = w.source ∧ w.fault.2.destination = w.destination
    ∧ w.fault.2.saved = w.saved ∧ w.fault.2.changes = w.changes
    ∧ w.fault.2.inTransaction = w.inTransaction := by
  unfold RowWorld.fault
  cases w.faults <;> exact ⟨rfl, rfl, rfl, rfl, rfl⟩

theorem stepMigrate_rows (w : RowWorld) :
    w.stepMigrate.2.saved = w.saved ∧ w.stepMigrate.2.source = w.source
    ∧ (w.stepMigrate.1 = true → w.stepMigrate.2.changes = 0 →
        w.stepMigrate.2.destination = w.destination)
    ∧ (w.stepMigrate.1 = true → w.stepMigrate.2.changes ≠ 0 →
        ∃ row rest rows, w.source = some (row :: rest) ∧ w.destination = some rows
          ∧ w.stepMigrate.2.destination = some (rows ++ [row])) := by
  unfold RowWorld.stepMigrate
  rcases hs : w.source with _ | _ | ⟨row, rest⟩ <;> rcases hd : w.destination with _ | rows <;>
    simp [hs, hd]

theorem stepRemove_rows (w : RowWorld) :
    w.stepRemove.2.saved = w.saved ∧ w.stepRemove.2.destination = w.destination
    ∧ (w.stepRemove.1 = true → w.stepRemove.2.source = w.source.map List.tail) := by
  unfold RowWorld.stepRemove
  rcases hs : w.source with _ | _ | ⟨row, rest⟩ <;> simp [hs]

theorem step_migrate_rows (b : InnerHandle RowWorld) :
    (b.step rowEngine Slot.migrateStatement).2.engine.saved = b.engine.saved
    ∧ (b.step rowEngine Slot.migrateStatement).2.engine.source = b.engine.source
    ∧ ((b.step rowEngine Slot.migrateStatement).1 = true →
        (b.step rowEngine Slot.migrateStatement).2.engine.changes = 0 →
        (b.step rowEngine Slot.migrateStatement).2.engine.destination = b.engine.destination)
    ∧ ((b.step rowEngine Slot.migrateStatement).1 = true →
        (b.step rowEngine Slot.migrateStatement).2.engine.changes ≠ 0 →
        ∃ row rest rows, b.engine.source = some (row :: rest)
          ∧ b.engine.destination = some rows
          ∧ (b.step rowEngine Slot.migrateStatement).2.engine.destination
              = some (rows ++ [row])) := by
  obtain ⟨f1, f2, f3, _, _⟩ := fault_rows b.engine
  obtain ⟨m1, m2, m3, m4⟩ := stepMigrate_rows b.engine.fault.2
  simp only [InnerHandle.step, InnerHandle.record, rowEngine]
  by_cases hf : b.engine.fault.1 = true
  · simp [hf, f1, f3]
  · simp only [hf, if_false]
    rw [f1] at m2 m4
    rw [f2] at m3 m4
    rw [f3] at m1
    exact ⟨m1, m2, m3, m4⟩

theorem step_remove_rows (b : InnerHandle RowWorld) :
    (b.step rowEngine Slot.removeMigratedStatement).2.engine.saved = b.engine.saved
    ∧ (b.step rowEngine Slot.removeMigratedStatement).2.engine.destination
        = b.engine.destination
    ∧ ((b.step rowEngine Slot.removeMigratedStatement).1 = true →
        (b.step rowEngine Slot.removeMigratedStatement).2.engine.source
          = b.engine.source.map List.tail) := by
  obtain ⟨f1, f2, f3, _, _⟩ := fault_rows b.engine
  obtain ⟨m1, m2, m3⟩ := stepRemove_rows b.engine.fault.2
  simp only [InnerHandle.step, InnerHandle.record, rowEngine]
  by_cases hf : b.engine.fault.1 = true
  · simp [hf, f2, f3]
  · simp only [hf, if_false]
    rw [f1] at m3
    rw [f2] at m2
    rw [f3] at m1
    exact ⟨m1, m2, m3⟩

theorem migrateRow_rows (h : MigrateHandle RowWorld) :
    (h.migrateRow rowEngine).2.inner.engine.saved = h.inner.engine.saved
    ∧ ((h.migrateRow rowEngine).1 = some true →
        Moved 0 (tables h.inner.engine) (tables (h.migrateRow rowEngine).2.inner.engine))
    ∧ ((h.migrateRow rowEngine).1 = some false →
        Moved 1 (tables h.inner.engine) (tables (h.migrateRow rowEngine).2.inner.engine)
        ∧ 1 ≤ rowCount h.inner.engine.source) := by
  have hb : ((h.inner.reset rowEngine Slot.migrateStatement).reset rowEngine
      Slot.removeMigratedStatement).engine = h.inner.engine := rfl
  obtain ⟨m1, m2, m3, m4⟩ := step_migrate_rows
    ((h.inner.reset rowEngine Slot.migrateStatement).reset rowEngine
      Slot.removeMigratedStatement)
  rw [hb] at m1 m2 m3 m4
  have hc1 : ∀ x : InnerHandle RowWorld, (x.getChanges rowEngine).1 = x.engine.changes :=
    fun _ => rfl
  have hc2 : ∀ x : InnerHandle RowWorld, (x.getChanges rowEngine).2.engine = x.engine :=
    fun _ => rfl
  obtain ⟨r1, r2, r3⟩ := step_remove_rows
    ((((h.inner.reset rowEngine Slot.migrateStatement).reset rowEngine
      Slot.removeMigratedStatement).step rowEngine Slot.migrateStatement).2.getChanges
        rowEngine).2
  rw [hc2] at r1 r2 r3
  unfold MigrateHandle.migrateRow
  simp only
  split_ifs with h1 h2 h3
  · -- a row was copied and deleted
    rw [hc1] at h2
    obtain ⟨row, rest, rows, hs, hd, hd2⟩ := m4 h1 h2
    refine ⟨by rw [r1, m1], by simp, fun _ => ⟨?_, ?_⟩⟩
    · refine ⟨?_, ?_, ?_, ?_⟩
      · simp only [tables]
        rw [r3 h3, m2, hs]
        simp
      · simp only [tables]
        rw [r2, hd2, hs, hd]
        simp
      · simp only [tables, hs, rowCount]
        simp
      · simp only [tables, hd]
        simp
    · rw [hs]; simp [rowCount]
  · exact ⟨by rw [r1, m1], by simp, by simp⟩
  · -- no row was left
    rw [hc1] at h2
    have h2b : (((h.inner.reset rowEngine Slot.migrateStatement).reset rowEngine
        Slot.removeMigratedStatement).step rowEngine Slot.migrateStatement).2.engine.changes
        = 0 := by
      by_contra hne
      exact h2 hne
    refine ⟨by rw [hc2, m1], fun _ => ?_, by simp⟩
    have := Moved_zero (tables h.inner.engine)
    simp only [tables, hc2, m2, m3 h1 h2b] at this ⊢
    exact this
  · exact ⟨m1, by simp, by simp⟩

theorem now_rows (b : InnerHandle RowWorld) :
    tables (b.now rowEngine).2.engine = tables b.engine
    ∧ (b.now rowEngine).2.engine.saved = b.engine.saved := by
  simp only [InnerHandle.now, rowEngine, tables]
  cases b.engine.clock <;> exact ⟨rfl, rfl⟩

theorem begin_rows (b : InnerHandle RowWorld) :
    tables (b.beginTransaction rowEngine).2.engine = tables b.engine := by
  obtain ⟨f1, f2, _, _, _⟩ := fault_rows b.engine
  simp only [InnerHandle.beginTransaction, InnerHandle.record, rowEngine, tables]
  split_ifs <;> simp [f1, f2]

theorem commit_rows (b : InnerHandle RowWorld)
    (hok : (b.commitOrRollbackTransaction rowEngine).1 = true) :
    tables (b.commitOrRollbackTransaction rowEngine).2.engine = tables b.engine := by
  obtain ⟨f1, f2, _, _, _⟩ := fault_rows b.engine
  simp only [InnerHandle.commitOrRollbackTransaction, InnerHandle.record, rowEngine,
    tables] at hok ⊢
  split_ifs at hok ⊢ with hf
  simp [f1, f2]

theorem rowCount_moved (k : Nat) (t t1 : Option (List Nat) × Option (List Nat))
    (h : Moved k t t1) :
    rowCount t1.1 + k = rowCount t.1 ∧ rowCount t1.2 = rowCount t.2 + k := by
  obtain ⟨s, d⟩ := t
  obtain ⟨s1, d1⟩ := t1
  obtain ⟨hs, hd, hk, hz⟩ := h
  simp only at hs hd hk hz
  subst hs hd
  cases s with
  | none =>
    simp only [rowCount] at hk
    have : k = 0 := by omega
    subst this
    cases d <;> simp [rowCount]
  | some rows =>
    simp only [rowCount] at hk
    cases d with
    | none =>
      have : k = 0 := hz rfl
      subst this
      simp [rowCount]
    | some dr => simp [rowCount, Nat.min_eq_left hk]; omega

theorem migrateLoop_rows (budget : Double) (before : ℚ) (fuel : Nat) :
    ∀ h : MigrateHandle RowWorld, rowCount h.inner.engine.source < fuel →
      ∃ m cost h1, MigrateHandle.migrateLoop rowEngine budget before fuel h = some (m, cost, h1)
        ∧ h1.inner.engine.saved = h.inner.engine.saved
        ∧ (m.isSome = true →
            ∃ k, Moved k (tables h.inner.engine) (tables h1.inner.engine)) := by
  induction fuel with
  | zero => intro h hlt; omega
  | succ n ih =>
    intro h hlt
    obtain ⟨r1, r2, r3⟩ := migrateRow_rows h
    obtain ⟨n1, n2⟩ := now_rows (h.migrateRow rowEngine).2.inner
    unfold MigrateHandle.migrateLoop
    simp only
    split_ifs with hc
    · obtain ⟨hm1, hge⟩ := r3 hc.1
      have hcount := (rowCount_moved 1 _ _ hm1).1
      have hlt2 : rowCount
          ({ (h.migrateRow rowEngine).2 with
              inner := ((h.migrateRow rowEngine).2.inner.now rowEngine).2 } :
            MigrateHandle RowWorld).inner.engine.source < n := by
        have e1 : (tables ((h.migrateRow rowEngine).2.inner.now rowEngine).2.engine).1
            = (tables (h.migrateRow rowEngine).2.inner.engine).1 := by rw [n1]
        simp only [tables] at e1 hcount
        simp only [e1]
        omega
      obtain ⟨m, cost, h1, hrun, hs, hmv⟩ := ih _ hlt2
      refine ⟨m, cost, h1, hrun, ?_, ?_⟩
      · rw [hs]
        simp only [n2, r1]
      · intro hm
        obtain ⟨k, hk⟩ := hmv hm
        simp only [n1] at hk
        exact ⟨1 + k, Moved_trans 1 k _ _ _ hm1 hk⟩
    · refine ⟨_, _, _, rfl, ?_, ?_⟩
      · simp only [n2, r1]
      · intro hm
        simp only [n1]
        cases hres : (h.migrateRow rowEngine).1 with
        | none => rw [hres] at hm; simp at hm
        | some b =>
          cases b with
          | true => exact ⟨0, r2 hres⟩
          | false => exact ⟨1, (r3 hres).1⟩

theorem tableExists_rows (b : InnerHandle RowWorld) (schema : Schema) (table : String) :
    tables (b.tableExists rowEngine schema table).2.engine = tables b.engine := by
  obtain ⟨f1, f2, _, _, _⟩ := fault_rows b.engine
  simp only [InnerHandle.tableExists, InnerHandle.record, rowEngine, tables]
  split_ifs <;> simp [f1, f2]

theorem prepare_rows (b : InnerHandle RowWorld) (slot : Slot) (statement : Statement) :
    tables (b.prepare rowEngine slot statement).2.engine = tables b.engine := by
  obtain ⟨f1, f2, _, _, _⟩ := fault_rows b.engine
  simp only [InnerHandle.prepare, InnerHandle.record, rowEngine, tables]
  split_ifs
  · simp [f1, f2]
  · cases statement <;> simp [f1, f2]

theorem detach_rows (h : MigrateHandle RowWorld) :
    tables (h.detach rowEngine).2.inner.engine = tables h.inner.engine := by
  obtain ⟨f1, f2, _, _, _⟩ := fault_rows h.inner.engine
  simp only [MigrateHandle.detach, InnerHandle.execute, InnerHandle.record, rowEngine, tables]
  split_ifs <;> simp [f1, f2]

theorem attach_rows (info : MigrationInfo) (h : MigrateHandle RowWorld) :
    tables (h.attach rowEngine info).2.inner.engine = tables h.inner.engine := by
  obtain ⟨f1, f2, _, _, _⟩ := fault_rows h.inner.engine
  obtain ⟨g1, g2, _, _, _⟩ := fault_rows h.inner.engine.fault.2
  simp only [MigrateHandle.attach, InnerHandle.prepare, InnerHandle.step, InnerHandle.finalize,
    InnerHandle.bindBLOB, InnerHandle.record, rowEngine, tables]
  split_ifs <;> simp [f1, f2, g1, g2]

theorem reAttach_rows (info : MigrationInfo) (h : MigrateHandle RowWorld) :
    tables (h.reAttach rowEngine info).2.inner.engine = tables h.inner.engine := by
  have hfin : ∀ g : MigrateHandle RowWorld,
      (MigrateHandle.finalizeMigrationStatement rowEngine g).inner.engine = g.inner.engine :=
    fun _ => rfl
  unfold MigrateHandle.reAttach
  simp only [hfin]
  split_ifs with h1 h2
  · exact (attach_rows info _).trans (detach_rows h)
  · exact detach_rows h
  · rfl

theorem switchInfo_rows (info : MigrationInfo) (h : MigrateHandle RowWorld) :
    tables (h.switchInfo rowEngine info).2.inner.engine = tables h.inner.engine := by
  unfold MigrateHandle.switchInfo
  by_cases h1 : h.m_migratingInfo ≠ some info
  · rw [if_pos h1]
    by_cases h2 : (h.reAttach rowEngine info).1 = true
    · simp only [h2, if_true]
      exact reAttach_rows info h
    · simp only [h2, if_false]
      exact reAttach_rows info h
  · rw [if_neg h1]

theorem prepareMigrateStatement_rows (info : MigrationInfo) (h : MigrateHandle RowWorld) :
    tables (h.prepareMigrateStatement rowEngine info).2.inner.engine = tables h.inner.engine := by
  unfold MigrateHandle.prepareMigrateStatement
  split_ifs
  · exact prepare_rows _ _ _
  · rfl

theorem prepareRemoveStatement_rows (info : MigrationInfo) (h : MigrateHandle RowWorld) :
    tables (h.prepareRemoveStatement rowEngine info).2.inner.engine = tables h.inner.engine := by
  unfold MigrateHandle.prepareRemoveStatement
  split_ifs
  · exact prepare_rows _ _ _
  · rfl

theorem migrateRowsTransaction_rows (C : CoreConst) (fuel : Nat) (h : MigrateHandle RowWorld)
    (hfuel : rowCount h.inner.engine.source < fuel) :
    ∃ r h1, MigrateHandle.migrateRowsTransaction rowEngine C fuel h = some (r, h1)
      ∧ (r.isSome = true → ∃ k, Moved k (tables h.inner.engine) (tables h1.inner.engine)) := by
  obtain ⟨n1, _⟩ := now_rows h.inner
  have hb := begin_rows (h.inner.now rowEngine).2
  have hfuel2 : rowCount
      ({ h with inner := ((h.inner.now rowEngine).2.beginTransaction rowEngine).2 } :
        MigrateHandle RowWorld).inner.engine.source < fuel := by
    have e1 : (tables ((h.inner.now rowEngine).2.beginTransaction rowEngine).2.engine).1
        = (tables h.inner.engine).1 := by rw [hb, n1]
    simp only [tables] at e1
    simp only [e1]
    exact hfuel
  obtain ⟨m, cost, h2, hrun, _, hmv⟩ := migrateLoop_rows
    (calculateTimeIntervalWithinTransaction binary64 C h.m_samples) (h.inner.now rowEngine).1 fuel _ hfuel2
  unfold MigrateHandle.migrateRowsTransaction MigrateHandle.runTransaction
  simp only
  cases hbg : ((h.inner.now rowEngine).2.beginTransaction rowEngine).1 with
  | false =>
    simp only [Bool.false_eq_true, if_false]
    exact ⟨_, _, rfl, by simp⟩
  | true =>
    simp only [if_true, hrun, Option.map_some']
    cases m with
    | none =>
      simp only [Option.isSome_none, Bool.false_eq_true, if_false]
      exact ⟨_, _, rfl, by simp⟩
    | some b =>
      simp only [Option.isSome_some, if_true]
      cases hc : (h2.inner.commitOrRollbackTransaction rowEngine).1 with
      | false => exact ⟨_, _, rfl, by simp⟩
      | true =>
        refine ⟨_, _, rfl, ?_⟩
        intro _
        obtain ⟨k, hk⟩ := hmv rfl
        refine ⟨k, ?_⟩
        have hcr := commit_rows h2.inner hc
        obtain ⟨n3, _⟩ := now_rows (h2.inner.commitOrRollbackTransaction rowEngine).2
        simp only [hb, n1] at hk
        simp only [MigrateHandle.addSample, n3, hcr]
        exact hk

/-! ### Which calls commit -/

theorem commits_append (a b : List Event) : commits (a ++ b) = commits a + commits b := by
  simp only [commits, List.count_append]

theorem commits_cons (e : Event) (t : List Event) :
    commits (e :: t) = (if e = Event.commitTransaction true then 1 else 0) + commits t := by
  simp only [commits, List.count_cons, beq_iff_eq]
  omega

theorem commits_nil : commits [] = 0 := rfl

theorem commits_finalize {σ : Type} (E : Engine σ) (g : MigrateHandle σ) :
    commits (MigrateHandle.finalizeMigrationStatement E g).inner.trace
      = commits g.inner.trace := by
  simp [MigrateHandle.finalizeMigrationStatement, InnerHandle.finalize, InnerHandle.record,
    commits_append, commits_cons, commits_nil]

theorem commits_detach {σ : Type} (E : Engine σ) (h : MigrateHandle σ) :
    commits (h.detach E).2.inner.trace = commits h.inner.trace := by
  unfold MigrateHandle.detach
  simp only [InnerHandle.execute, InnerHandle.record]
  split_ifs <;> simp [commits_append, commits_cons, commits_nil]

theorem commits_attach {σ : Type} (E : Engine σ) (info : MigrationInfo)
    (h : MigrateHandle σ) :
    commits (h.attach E info).2.inner.trace = commits h.inner.trace := by
  unfold MigrateHandle.attach
  simp only [InnerHandle.prepare, InnerHandle.step, InnerHandle.finalize, InnerHandle.bindBLOB,
    InnerHandle.record]
  split_ifs <;> simp [commits_append, commits_cons, commits_nil]

theorem commits_reAttach {σ : Type} (E : Engine σ) (info : MigrationInfo)
    (h : MigrateHandle σ) :
    commits (h.reAttach E info).2.inner.trace = commits h.inner.trace := by
  unfold MigrateHandle.reAttach
  simp only [commits_finalize]
  split_ifs
  · rw [commits_attach, commits_detach]
  · exact commits_detach E h
  · rfl

theorem commits_switchInfo {σ : Type} (E : Engine σ) (info : MigrationInfo)
    (h : MigrateHandle σ) :
    commits (h.switchInfo E info).2.inner.trace = commits h.inner.trace := by
  unfold MigrateHandle.switchInfo
  by_cases h1 : h.m_migratingInfo ≠ some info
  · rw [if_pos h1]
    by_cases h2 : (h.reAttach E info).1 = true
    · simp only [h2, if_true]
      exact commits_reAttach E info h
    · simp only [h2, if_false]
      exact commits_reAttach E info h
  · rw [if_neg h1]

theorem commits_prepareMigrateStatement {σ : Type} (E : Engine σ) (info : MigrationInfo)
    (h : MigrateHandle σ) :
    commits (h.prepareMigrateStatement E info).2.inner.trace = commits h.inner.trace := by
  unfold MigrateHandle.prepareMigrateStatement
  split_ifs
  · simp [InnerHandle.prepare, InnerHandle.record, commits_append, commits_cons, commits_nil]
  · rfl

theorem commits_prepareRemoveStatement {σ : Type} (E : Engine σ) (info : MigrationInfo)
    (h : MigrateHandle σ) :
    commits (h.prepareRemoveStatement E info).2.inner.trace = commits h.inner.trace := by
  unfold MigrateHandle.prepareRemoveStatement
  split_ifs
  · simp [InnerHandle.prepare, InnerHandle.record, commits_append, commits_cons, commits_nil]
  · rfl

theorem commits_migrateRow {σ : Type} (E : Engine σ) (h : MigrateHandle σ) :
    commits (h.migrateRow E).2.inner.trace = commits h.inner.trace := by
  unfold MigrateHandle.migrateRow
  simp only [InnerHandle.reset, InnerHandle.step, InnerHandle.getChanges, InnerHandle.record]
  split_ifs <;> simp [commits_append, commits_cons, commits_nil]

theorem commits_migrateLoop {σ : Type} (E : Engine σ) (budget : Double) (before : ℚ)
    (fuel : Nat) :
    ∀ (h : MigrateHandle σ) (m : Option Bool) (cost : ℚ) (h1 : MigrateHandle σ),
      MigrateHandle.migrateLoop E budget before fuel h = some (m, cost, h1) →
      commits h1.inner.trace = commits h.inner.trace := by
  induction fuel with
  | zero =>
    intro h m cost h1 hrun
    simp [MigrateHandle.migrateLoop] at hrun
  | succ n ih =>
    intro h m cost h1 hrun
    unfold MigrateHandle.migrateLoop at hrun
    simp only at hrun
    split_ifs at hrun with hc
    · rw [ih _ m cost h1 hrun]
      simp only [now_trace]
      exact commits_migrateRow E h
    · simp only [Option.some.injEq, Prod.mk.injEq] at hrun
      obtain ⟨_, _, hh⟩ := hrun
      rw [← hh]
      simp only [now_trace]
      exact commits_migrateRow E h

theorem commits_transaction {σ : Type} (E : Engine σ) (C : CoreConst) (fuel : Nat)
    (h : MigrateHandle σ) (r : Option Bool) (h1 : MigrateHandle σ)
    (hrun : MigrateHandle.migrateRowsTransaction E C fuel h = some (r, h1)) :
    commits h1.inner.trace = commits h.inner.trace + (if r.isSome then 1 else 0) := by
  unfold MigrateHandle.migrateRowsTransaction MigrateHandle.runTransaction at hrun
  simp only at hrun
  have hbt : commits (InnerHandle.beginTransaction E (h.inner.now E).2).2.trace
      = commits h.inner.trace := by
    simp [InnerHandle.beginTransaction, InnerHandle.record, now_trace, commits_append, commits_cons, commits_nil]
  cases hb : (InnerHandle.beginTransaction E (h.inner.now E).2).1 with
  | false =>
    simp only [hb, Bool.false_eq_true, if_false, Option.some.injEq, Prod.mk.injEq] at hrun
    obtain ⟨hr, hh⟩ := hrun
    rw [← hh, ← hr]
    simpa using hbt
  | true =>
    simp only [hb, if_true] at hrun
    cases hl : MigrateHandle.migrateLoop E (calculateTimeIntervalWithinTransaction binary64 C h.m_samples)
        (h.inner.now E).1 fuel
        { h with inner := (InnerHandle.beginTransaction E (h.inner.now E).2).2 } with
    | none => simp [hl] at hrun
    | some res =>
      obtain ⟨m, cost, h2⟩ := res
      have hcl := commits_migrateLoop E _ _ fuel _ m cost h2 hl
      simp only at hcl
      rw [hbt] at hcl
      simp only [hl, Option.map_some'] at hrun
      cases m with
      | none =>
        simp only [Option.isSome_none, Bool.false_eq_true, if_false, Option.some.injEq,
          Prod.mk.injEq] at hrun
        obtain ⟨hr, hh⟩ := hrun
        rw [← hh, ← hr]
        simp [InnerHandle.rollbackTransaction, InnerHandle.record, commits_append, commits_cons, commits_nil, hcl]
      | some b =>
        simp only [Option.isSome_some, if_true] at hrun
        cases hc : (InnerHandle.commitOrRollbackTransaction E h2.inner).1 with
        | false =>
          have hc2 : (E.commitOrRollbackTransaction h2.inner.engine).1 = false := by
            simpa [InnerHandle.commitOrRollbackTransaction] using hc
          simp only [hc, Option.some.injEq, Prod.mk.injEq] at hrun
          obtain ⟨hr, hh⟩ := hrun
          rw [← hh, ← hr]
          simp [InnerHandle.commitOrRollbackTransaction, InnerHandle.record,
            commits_append, commits_cons, commits_nil, hcl, hc2]
        | true =>
          have hc2 : (E.commitOrRollbackTransaction h2.inner.engine).1 = true := by
            simpa [InnerHandle.commitOrRollbackTransaction] using hc
          simp only [hc, Option.some.injEq, Prod.mk.injEq] at hrun
          obtain ⟨hr, hh⟩ := hrun
          rw [← hh, ← hr]
          simp [MigrateHandle.addSample, now_trace, InnerHandle.commitOrRollbackTransaction,
            InnerHandle.record, commits_append, commits_cons, commits_nil, hcl, hc2]

theorem commits_migrateRows {σ : Type} (E : Engine σ) (C : CoreConst) (fuel : Nat)
    (info : MigrationInfo) (h : MigrateHandle σ) (r : Option Bool) (h1 : MigrateHandle σ)
    (hrun : h.migrateRows E C fuel info = some (r, h1)) :
    commits h1.inner.trace = commits h.inner.trace + 1
      ↔ (r.isSome = true ∧ (E.tableExists Schema.main info.table h.inner.engine).1 = some true)
    := by
  unfold MigrateHandle.migrateRows at hrun
  simp only at hrun
  have hte : commits (h.inner.tableExists E Schema.main info.table).2.trace
      = commits h.inner.trace := by
    simp [InnerHandle.tableExists, InnerHandle.record, commits_append, commits_cons, commits_nil]
  have he0 : (h.inner.tableExists E Schema.main info.table).1
      = (E.tableExists Schema.main info.table h.inner.engine).1 := rfl
  rw [← he0]
  cases he : (h.inner.tableExists E Schema.main info.table).1 with
  | none =>
    simp only [he, Option.some.injEq, Prod.mk.injEq] at hrun
    obtain ⟨hr, hh⟩ := hrun
    rw [← hh, ← hr]
    simp [hte]
  | some b =>
    cases b with
    | false =>
      simp only [he, Option.some.injEq, Prod.mk.injEq] at hrun
      obtain ⟨hr, hh⟩ := hrun
      rw [← hh, ← hr]
      simp [hte]
    | true =>
      simp only [he] at hrun
      have hA := commits_switchInfo E info
        { h with inner := (h.inner.tableExists E Schema.main info.table).2 }
      have hP := commits_prepareMigrateStatement E info
        (MigrateHandle.switchInfo E info
          { h with inner := (h.inner.tableExists E Schema.main info.table).2 }).2
      have hQ := commits_prepareRemoveStatement E info
        (MigrateHandle.prepareMigrateStatement E info
          (MigrateHandle.switchInfo E info
            { h with inner := (h.inner.tableExists E Schema.main info.table).2 }).2).2
      simp only at hA
      rw [hte] at hA
      rw [hA] at hP
      rw [hP] at hQ
      split_ifs at hrun with h1c h2c h3c
      · simp only [Option.some.injEq, Prod.mk.injEq] at hrun
        obtain ⟨hr, hh⟩ := hrun
        rw [← hh, ← hr]
        simp [hA]
      · simp only [Option.some.injEq, Prod.mk.injEq] at hrun
        obtain ⟨hr, hh⟩ := hrun
        rw [← hh, ← hr]
        simp [hP]
      · simp only [Option.some.injEq, Prod.mk.injEq] at hrun
        obtain ⟨hr, hh⟩ := hrun
        rw [← hh, ← hr]
        simp [hQ]
      · have hT := commits_transaction E C fuel _ r h1 hrun
        rw [hQ] at hT
        rw [hT]
        cases r <;> simp

theorem migrateRows_rows (C : CoreConst) (fuel : Nat) (info : MigrationInfo)
    (h : MigrateHandle RowWorld) (hfuel : rowCount h.inner.engine.source < fuel) :
    ∃ r h1, h.migrateRows rowEngine C fuel info = some (r, h1)
      ∧ (r.isSome = true → ∃ k, Moved k (tables h.inner.engine) (tables h1.inner.engine)) := by
  have hte := tableExists_rows h.inner Schema.main info.table
  have hA := switchInfo_rows info
    { h with inner := (h.inner.tableExists rowEngine Schema.main info.table).2 }
  have hP := prepareMigrateStatement_rows info
    (MigrateHandle.switchInfo rowEngine info
      { h with inner := (h.inner.tableExists rowEngine Schema.main info.table).2 }).2
  have hQ := prepareRemoveStatement_rows info
    (MigrateHandle.prepareMigrateStatement rowEngine info
      (MigrateHandle.switchInfo rowEngine info
        { h with inner := (h.inner.tableExists rowEngine Schema.main info.table).2 }).2).2
  simp only at hA
  rw [hte] at hA
  rw [hA] at hP
  rw [hP] at hQ
  unfold MigrateHandle.migrateRows
  simp only
  cases he : (h.inner.tableExists rowEngine Schema.main info.table).1 with
  | none => exact ⟨_, _, rfl, by simp⟩
  | some b =>
    cases b with
    | false =>
      refine ⟨_, _, rfl, fun _ => ⟨0, ?_⟩⟩
      simp only [hte]
      exact Moved_zero _
    | true =>
      simp only
      split_ifs with h1c h2c h3c
      · exact ⟨_, _, rfl, by simp⟩
      · exact ⟨_, _, rfl, by simp⟩
      · exact ⟨_, _, rfl, by simp⟩
      · have hfuel2 : rowCount (MigrateHandle.prepareRemoveStatement rowEngine info
            (MigrateHandle.prepareMigrateStatement rowEngine info
              (MigrateHandle.switchInfo rowEngine info
                { h with inner :=
                    (h.inner.tableExists rowEngine Schema.main info.table).2 }).2).2
            ).2.inner.engine.source < fuel := by
          have e1 := congrArg Prod.fst hQ
          simp only [tables] at e1
          rw [e1]
          exact hfuel
        obtain ⟨r, h1, hrun, hmv⟩ := migrateRowsTransaction_rows C fuel _ hfuel2
        refine ⟨r, h1, hrun, ?_⟩
        intro hr
        obtain ⟨k, hk⟩ := hmv hr
        rw [hQ] at hk
        exact ⟨k, hk⟩

/-- C1, amended: whenever `migrateRows(info)` returns, the engine calls it made
(the events `d` it added to the trace) decide the result.  It returns absent
exactly when one of them failed (existence check, detach, attach, prepare, a
per-row step, BEGIN or COMMIT); it returns true exactly when none failed and
either the only call was the existence check of the destination table,
answering that the table does not exist, or the last per-row migrate step
reported zero changes; it returns false exactly when none failed and the last
per-row migrate step reported a non-zero change count (a row was moved and the
loop stopped on the time budget).  Whether the source table exists is never
asked.  On the row-level engine the call does return: fuel of one more than
the number of source rows is enough from every state. -/
theorem migrateRows_result_meaning {σ : Type} (E : Engine σ) (C : CoreConst) (fuel : Nat)
    (info : MigrationInfo) (h : MigrateHandle σ) :
    (∀ (r : Option Bool) (h1 : MigrateHandle σ),
      h.migrateRows E C fuel info = some (r, h1) →
      ∃ d : List Event, h1.inner.trace = h.inner.trace ++ d
        ∧ (r = none ↔ noFailure d = false)
        ∧ (r = some true ↔ noFailure d = true
            ∧ (d = [Event.tableExists Schema.main info.table (some false)]
              ∨ lastChanges d = some 0))
        ∧ (r = some false ↔ noFailure d = true
            ∧ ∃ n : Int, n ≠ 0 ∧ lastChanges d = some n))
    ∧ (∀ g : MigrateHandle RowWorld,
        ∃ r g1, g.migrateRows rowEngine C (rowCount g.inner.engine.source + 1) info
          = some (r, g1)) := by
  refine ⟨fun r h1 hrun => migrateRows_meaning_of_core E C fuel info h r h1 hrun, ?_⟩
  intro g
  obtain ⟨r, g1, hrun, _⟩ := migrateRows_rows C (rowCount g.inner.engine.source + 1) info g
    (Nat.lt_succ_self _)
  exact ⟨r, g1, hrun⟩

/-- C2: on the row-level engine, `migrateRows` run with enough fuel (one more
than the number of source rows) returns, and whenever its transaction commits
(one more successful COMMIT in the trace), which is the case whenever it
returns a value rather than absent after finding the destination, the first
`k` source rows have moved to the end of the destination and nothing else has
changed: the source lost exactly the `k` rows the destination gained, and the
total number of rows is the same before and after the call. -/
theorem migrateRows_preserves_row_total (C : CoreConst) (info : MigrationInfo)
    (h : MigrateHandle RowWorld) :
    ∃ r h1, h.migrateRows rowEngine C (rowCount h.inner.engine.source + 1) info = some (r, h1)
      ∧ (commits h1.inner.trace = commits h.inner.trace + 1 → r ≠ none)
      ∧ (r ≠ none →
          ∃ k, Moved k (tables h.inner.engine) (tables h1.inner.engine)
            ∧ rowCount h1.inner.engine.source + k = rowCount h.inner.engine.source
            ∧ rowCount h1.inner.engine.destination = rowCount h.inner.engine.destination + k
            ∧ rowCount h1.inner.engine.source + rowCount h1.inner.engine.destination
                = rowCount h.inner.engine.source + rowCount h.inner.engine.destination) := by
  obtain ⟨r, h1, hrun, hmv⟩ := migrateRows_rows C (rowCount h.inner.engine.source + 1) info h
    (Nat.lt_succ_self _)
  refine ⟨r, h1, hrun, ?_, ?_⟩
  · intro hc
    have := ((commits_migrateRows rowEngine C _ info h r h1 hrun).mp hc).1
    intro hr
    rw [hr] at this
    simp at this
  · intro hr
    have hsome : r.isSome = true := by
      cases r with
      | none => exact absurd rfl hr
      | some b => rfl
    obtain ⟨k, hk⟩ := hmv hsome
    obtain ⟨c1, c2⟩ := rowCount_moved k _ _ hk
    simp only [tables] at c1 c2
    exact ⟨k, hk, c1, c2, by omega⟩

theorem migrateRows_preserves_row_total_witness :
    ∃ r h1, (exampleHandle (some [1, 2, 3]) (some [9]) [] [0, 1, 2, 100, 101]).migrateRows
        rowEngine exampleConst 4 exampleInfo = some (r, h1)
      ∧ r = some false
      ∧ rowCount h1.inner.engine.source + rowCount h1.inner.engine.destination = 4 := by
  obtain ⟨r, h1, hrun, _, hmv⟩ := migrateRows_preserves_row_total exampleConst exampleInfo
    (exampleHandle (some [1, 2, 3]) (some [9]) [] [0, 1, 2, 100, 101])
  have hfuel : rowCount
      (exampleHandle (some [1, 2, 3]) (some [9]) [] [0, 1, 2, 100, 101]).inner.engine.source + 1
      = 4 := rfl
  rw [hfuel] at hrun
  have q1 : (1 : ℚ) < 5 := by norm_num
  have q2 : (2 : ℚ) < 5 := by norm_num
  have q3 : ¬ ((100 : ℚ) < 5) := by norm_num
  have heval : ((exampleHandle (some [1, 2, 3]) (some [9]) [] [0, 1, 2, 100, 101]).migrateRows
      rowEngine exampleConst 4 exampleInfo).map Prod.fst = some (some false) := by
    simp [q1, q2, q3, MigrateHandle.migrateRows, MigrateHandle.switchInfo,
    MigrateHandle.prepareMigrateStatement, MigrateHandle.prepareRemoveStatement,
    MigrateHandle.migrateRowsTransaction, MigrateHandle.runTransaction,
    MigrateHandle.migrateLoop, MigrateHandle.migrateRow, MigrateHandle.reAttach,
    MigrateHandle.detach, MigrateHandle.attach, MigrateHandle.finalizeMigrationStatement,
    MigrateHandle.addSample, InnerHandle.tableExists, InnerHandle.prepare, InnerHandle.step,
    InnerHandle.reset, InnerHandle.finalize, InnerHandle.execute, InnerHandle.getChanges,
    InnerHandle.beginTransaction, InnerHandle.commitOrRollbackTransaction, InnerHandle.now,
    InnerHandle.record, rowEngine, RowWorld.fault, RowWorld.stepMigrate, RowWorld.stepRemove,
    exampleHandle, exampleWorld, MigrateHandle.create, exampleInfo,
    Schema.isTargetingSameSchema, Schema.isMain, calculate_fresh, Sample.zero,
    Double.exceeds, exampleConst, rowCount]
  have hr : r = some false := by
    rw [hrun] at heval
    simpa using heval
  refine ⟨r, h1, hrun, hr, ?_⟩
  obtain ⟨k, _, _, _, hsum⟩ := hmv (by rw [hr]; simp)
  rw [hsum]
  rfl

/-- C1 as stated fails on the row-level engine: `migrateRows` returns true
while the source table exists and still holds three rows (the destination is
missing); it returns true while the source table exists, empty; and it returns
false although no row remains in the source (the last row was moved and the
time budget was used up). -/
theorem migrateRows_true_does_not_mean_source_gone :
    (∃ h1, (exampleHandle (some [1, 2, 3]) none [] []).migrateRows rowEngine exampleConst 4
        exampleInfo = some (some true, h1)
      ∧ h1.inner.engine.source = some [1, 2, 3])
    ∧ (∃ h1, (exampleHandle (some []) (some [7]) [] []).migrateRows rowEngine exampleConst 1
        exampleInfo = some (some true, h1)
      ∧ h1.inner.engine.source = some [])
    ∧ ((exampleHandle (some [1]) (some []) [] [0, 100, 101]).migrateRows rowEngine
        exampleConst 2 exampleInfo).map (fun x => (x.1, x.2.inner.engine.source))
        = some (some false, some []) := by
  refine ⟨⟨_, rfl, rfl⟩, ⟨_, rfl, rfl⟩, ?_⟩
  have q3 : ¬ ((100 : ℚ) < 5) := by norm_num
  simp [q3, MigrateHandle.migrateRows, MigrateHandle.switchInfo,
    MigrateHandle.prepareMigrateStatement, MigrateHandle.prepareRemoveStatement,
    MigrateHandle.migrateRowsTransaction, MigrateHandle.runTransaction,
    MigrateHandle.migrateLoop, MigrateHandle.migrateRow, MigrateHandle.reAttach,
    MigrateHandle.detach, MigrateHandle.attach, MigrateHandle.finalizeMigrationStatement,
    MigrateHandle.addSample, InnerHandle.tableExists, InnerHandle.prepare, InnerHandle.step,
    InnerHandle.reset, InnerHandle.finalize, InnerHandle.execute, InnerHandle.getChanges,
    InnerHandle.beginTransaction, InnerHandle.commitOrRollbackTransaction, InnerHandle.now,
    InnerHandle.record, rowEngine, RowWorld.fault, RowWorld.stepMigrate, RowWorld.stepRemove,
    exampleHandle, exampleWorld, MigrateHandle.create, exampleInfo,
    Schema.isTargetingSameSchema, Schema.isMain, calculate_fresh, Sample.zero,
    Double.exceeds, exampleConst, rowCount]

theorem migrateRows_result_meaning_witness :
    ∃ h1, (exampleHandle (some []) (some [7]) [] []).migrateRows rowEngine exampleConst 1
        exampleInfo = some (some true, h1)
      ∧ ∃ d, h1.inner.trace = (exampleHandle (some []) (some [7]) [] []).inner.trace ++ d
        ∧ noFailure d = true
        ∧ (d = [Event.tableExists Schema.main exampleInfo.table (some false)]
          ∨ lastChanges d = some 0) :=
  ⟨_, rfl,
    ((migrateRows_result_meaning rowEngine exampleConst 1 exampleInfo
      (exampleHandle (some []) (some [7]) [] [])).1 (some true) _ rfl).elim
      (fun d hd => ⟨d, hd.1, (hd.2.2.1.mp rfl).1, (hd.2.2.1.mp rfl).2⟩)⟩

/-! ## migrateRow: one row -/

theorem migrateRow_unfold {σ : Type} (E : Engine σ) (h : MigrateHandle σ) :
    h.migrateRow E =
      if (MigrateHandle.migrateStep E h).1 = true then
        if MigrateHandle.changesAfterMigrate E h ≠ 0 then
          if (MigrateHandle.removeStep E h).1 = true then
            (some false,
              { h with inner :=
                { engine := (MigrateHandle.removeStep E h).2
                  trace := h.inner.trace ++
                    [Event.reset Slot.migrateStatement, Event.reset Slot.removeMigratedStatement,
                      Event.step Slot.migrateStatement true,
                      Event.getChanges (MigrateHandle.changesAfterMigrate E h),
                      Event.step Slot.removeMigratedStatement true] } })
          else
            (none,
              { h with inner :=
                { engine := (MigrateHandle.removeStep E h).2
                  trace := h.inner.trace ++
                    [Event.reset Slot.migrateStatement, Event.reset Slot.removeMigratedStatement,
                      Event.step Slot.migrateStatement true,
                      Event.getChanges (MigrateHandle.changesAfterMigrate E h),
                      Event.step Slot.removeMigratedStatement false] } })
        else
          (some true,
            { h with inner :=
              { engine := (MigrateHandle.migrateStep E h).2
                trace := h.inner.trace ++
                  [Event.reset Slot.migrateStatement, Event.reset Slot.removeMigratedStatement,
                    Event.step Slot.migrateStatement true, Event.getChanges 0] } })
      else
        (none,
          { h with inner :=
            { engine := (MigrateHandle.migrateStep E h).2
              trace := h.inner.trace ++
                [Event.reset Slot.migrateStatement, Event.reset Slot.removeMigratedStatement,
                  Event.step Slot.migrateStatement false] } }) := by
  unfold MigrateHandle.migrateRow MigrateHandle.removeStep MigrateHandle.changesAfterMigrate
    MigrateHandle.migrateStep MigrateHandle.afterResets
  simp only [InnerHandle.reset, InnerHandle.step, InnerHandle.getChanges, InnerHandle.record]
  split_ifs with h1 h2 h3
  · simp [h1, h3]
  · have h3b : (E.step Slot.removeMigratedStatement
        (E.step Slot.migrateStatement
          (E.reset Slot.removeMigratedStatement
            (E.reset Slot.migrateStatement h.inner.engine))).2).1 = false := by
      simpa using h3
    simp [h1, h3b]
  · have h2b : E.getChanges (E.step Slot.migrateStatement
        (E.reset Slot.removeMigratedStatement
          (E.reset Slot.migrateStatement h.inner.engine))).2 = 0 := by
      by_contra hne
      exact h2 hne
    simp [h1, h2b]
  · have h1b : (E.step Slot.migrateStatement
        (E.reset Slot.removeMigratedStatement
          (E.reset Slot.migrateStatement h.inner.engine))).1 = false := by
      simpa using h1
    simp [h1b]

/-- C11: `migrateRow` returns true exactly when the migrate statement steps
successfully and `getChanges()` is zero, and the delete statement is then not
stepped (the events added are the two resets, the migrate step and the read of
the change count, and the engine is as the migrate step left it); it returns
false exactly when the migrate statement steps successfully with a non-zero
change count and the delete statement then steps successfully; it returns
absent exactly when the migrate step fails or the delete step that follows a
non-zero change count fails.  In every case both statements are reset before
the migrate statement is stepped, and it is stepped once. -/
theorem migrateRow_outcomes {σ : Type} (E : Engine σ) (h : MigrateHandle σ) :
    ((h.migrateRow E).1 = some true ↔
      (MigrateHandle.migrateStep E h).1 = true ∧ MigrateHandle.changesAfterMigrate E h = 0)
    ∧ ((h.migrateRow E).1 = some false ↔
      (MigrateHandle.migrateStep E h).1 = true ∧ MigrateHandle.changesAfterMigrate E h ≠ 0
        ∧ (MigrateHandle.removeStep E h).1 = true)
    ∧ ((h.migrateRow E).1 = none ↔
      (MigrateHandle.migrateStep E h).1 = false
        ∨ ((MigrateHandle.migrateStep E h).1 = true ∧ MigrateHandle.changesAfterMigrate E h ≠ 0
          ∧ (MigrateHandle.removeStep E h).1 = false))
    ∧ ((h.migrateRow E).1 = some true →
        (h.migrateRow E).2.inner.trace = h.inner.trace ++
          [Event.reset Slot.migrateStatement, Event.reset Slot.removeMigratedStatement,
            Event.step Slot.migrateStatement true, Event.getChanges 0]
        ∧ (h.migrateRow E).2.inner.engine = (MigrateHandle.migrateStep E h).2)
    ∧ (∃ rest : List Event,
        (h.migrateRow E).2.inner.trace = h.inner.trace ++
          Event.reset Slot.migrateStatement :: Event.reset Slot.removeMigratedStatement
            :: Event.step Slot.migrateStatement (MigrateHandle.migrateStep E h).1 :: rest
        ∧ ∀ e ∈ rest, ∀ b, e ≠ Event.step Slot.migrateStatement b) := by
  rw [migrateRow_unfold]
  by_cases h1 : (MigrateHandle.migrateStep E h).1 = true
  · by_cases h2 : MigrateHandle.changesAfterMigrate E h = 0
    · refine ⟨?_, ?_, ?_, ?_, [Event.getChanges 0], ?_, ?_⟩ <;> simp [h1, h2]
    · by_cases h3 : (MigrateHandle.removeStep E h).1 = true
      · refine ⟨?_, ?_, ?_, ?_,
          [Event.getChanges (MigrateHandle.changesAfterMigrate E h),
            Event.step Slot.removeMigratedStatement true], ?_, ?_⟩ <;> simp [h1, h2, h3]
      · have h3b : (MigrateHandle.removeStep E h).1 = false := by simpa using h3
        refine ⟨?_, ?_, ?_, ?_,
          [Event.getChanges (MigrateHandle.changesAfterMigrate E h),
            Event.step Slot.removeMigratedStatement false], ?_, ?_⟩ <;> simp [h1, h2, h3b]
  · have h1b : (MigrateHandle.migrateStep E h).1 = false := by simpa using h1
    refine ⟨?_, ?_, ?_, ?_, [], ?_, ?_⟩ <;> simp [h1b]

theorem migrateRow_outcomes_witness :
    ((examplePreparedHandle (some []) (some [7]) []).migrateRow rowEngine).1 = some true
    ∧ ((examplePreparedHandle (some []) (some [7]) []).migrateRow rowEngine).2.inner.trace
        = (examplePreparedHandle (some []) (some [7]) []).inner.trace ++
          [Event.reset Slot.migrateStatement, Event.reset Slot.removeMigratedStatement,
            Event.step Slot.migrateStatement true, Event.getChanges 0]
    ∧ ((examplePreparedHandle (some [4, 5]) (some [7]) []).migrateRow rowEngine).1 = some false
    ∧ (MigrateHandle.removeStep rowEngine (examplePreparedHandle (some [4, 5]) (some [7]) [])).1
        = true
    ∧ ((examplePreparedHandle (some [4, 5]) (some [7]) [false, true]).migrateRow rowEngine).1
        = none :=
  ⟨by rfl,
    ((migrateRow_outcomes rowEngine (examplePreparedHandle (some []) (some [7]) [])).2.2.2.1
      (by rfl)).1,
    by rfl,
    ((migrateRow_outcomes rowEngine (examplePreparedHandle (some [4, 5]) (some [7]) [])).2.1.mp
      (by rfl)).2.2,
    (migrateRow_outcomes rowEngine
      (examplePreparedHandle (some [4, 5]) (some [7]) [false, true])).2.2.1.mpr
      (Or.inr ⟨by rfl, by decide, by rfl⟩)⟩

end WCDB
